import Mathlib

/-!
# Speaker embedding extractor (NeMo): `Compute` and `NormalizePerFeature`

A shallow embedding of `sherpa-onnx/csrc/speaker-embedding-extractor-nemo-impl.h`.

* `int32_t` values are mathematical integers; every `int32_t` result is reduced with `wrap32`.
* `float` is an arbitrary linearly ordered field `α` together with a square-root function, so
  the numeric code can be run over `ℚ` and reasoned about over `ℝ` with `Real.sqrt`.
* The stream, the model and the tensors are external collaborators: they appear as records of
  exactly the operations `Compute` uses.
* Side effects (`GetFrames` calls, model invocations, log lines, `exit`) are recorded in the
  value returned by the embedded `Compute`.
-/

namespace SherpaOnnx

/-! ## Machine integers -/

/-- Two's-complement reduction of an integer to the `int32_t` range. -/
def wrap32 (x : Int) : Int := (x + 2147483648) % 4294967296 - 2147483648

/-- Conversion of a signed integer to the 64-bit `size_t`. -/
def toSizeT (x : Int) : Nat := (x % 18446744073709551616).toNat

/-! ## External collaborators -/

/-- The part of `OnlineStream` used by the extractor: the two frame counters and the frame
reader. `GetNumProcessedFrames` is the mutable cursor (a reference in the source). -/
structure OnlineStream (α : Type) where
  NumFramesReady : Int
  GetNumProcessedFrames : Int
  GetFrames : Int → Int → List α

/-- Both counters of the stream are frame counts held in an `int32_t`. -/
def OnlineStream.Valid {α : Type} (s : OnlineStream α) : Prop :=
  0 ≤ s.GetNumProcessedFrames ∧ s.GetNumProcessedFrames < 2147483648 ∧
  0 ≤ s.NumFramesReady ∧ s.NumFramesReady < 2147483648

instance {α : Type} (s : OnlineStream α) : Decidable s.Valid := by
  unfold OnlineStream.Valid; infer_instance

/-- A tensor view: the shape array and the element buffer given to `CreateTensor`. -/
structure Tensor (β : Type) where
  shape : List Int
  data : List β

/-- The field of the model meta data read by `Compute`. -/
structure SpeakerEmbeddingExtractorNeMoModelMetaData where
  feature_normalize_type : String

/-- The model: its meta data (`GetMetaData()`) and the network run (`Compute(x, x_lens)`). -/
structure SpeakerEmbeddingExtractorNeMoModel (α : Type) where
  GetMetaData : SpeakerEmbeddingExtractorNeMoModelMetaData
  Compute : Tensor α → Tensor Int → Tensor α

/-- Modelled from the spec: `Transpose12` of `transpose.h` is not among the sources. Spec §4.4:
given a tensor of shape `[B, T, F]` produce a new tensor of shape `[B, F, T]`, a pure
permutation of the values with the batch dimension unchanged. -/
def Transpose12 {α : Type} [Zero α] (x : Tensor α) : Tensor α :=
  match x.shape with
  | [b, t, f] =>
    ⟨[b, f, t],
     (List.range b.toNat).flatMap fun bi =>
       (List.range f.toNat).flatMap fun fi =>
         (List.range t.toNat).map fun ti =>
           x.data.getD (bi * (t.toNat * f.toNat) + ti * f.toNat + fi) 0⟩
  | _ => x

/-! ## Vectors and loops -/

/-- The call `std::vector<float>::resize(n)`: truncate, or extend with zeros. -/
def resize {α : Type} [Zero α] (v : List α) (n : Nat) : List α :=
  v.take n ++ List.replicate (n - v.length) 0

/-- The loop `for (int32_t i = 0; i < n; ++i) body(i)` over a mutable state. -/
def forLoop {σ : Type} (n : Int) (body : Nat → σ → σ) (init : σ) : σ :=
  (List.range n.toNat).foldl (fun st i => body i st) init

/-! ## `NormalizePerFeature` -/

/-- The flat offset `i * feat_dim + j`, computed in `int32_t`. -/
def flatIndex (feat_dim : Int) (i j : Nat) : Nat :=
  (wrap32 (wrap32 ((i : Int) * feat_dim) + (j : Int))).toNat

/-- The in-place normalisation `NormalizePerFeature(p, num_frames, feat_dim)`; the result is the
buffer `p` after the call. -/
def NormalizePerFeature {α : Type} [LinearOrderedField α] (sqrt : α → α)
    (p : List α) (num_frames feat_dim : Int) : List α :=
  -- std::vector<float> mean(feat_dim, 0.0f);
  let mean : List α := List.replicate feat_dim.toNat 0
  -- first pass
  let mean := forLoop num_frames (fun i mean =>
    forLoop feat_dim (fun j mean =>
      mean.set j (mean.getD j 0 + p.getD (flatIndex feat_dim i j) 0)) mean) mean
  let mean := forLoop feat_dim (fun j mean =>
    mean.set j (mean.getD j 0 / (num_frames : α))) mean
  -- second pass
  let variance : List α := List.replicate feat_dim.toNat 0
  let variance := forLoop num_frames (fun i variance =>
    forLoop feat_dim (fun j variance =>
      let diff := p.getD (flatIndex feat_dim i j) 0 - mean.getD j 0
      variance.set j (variance.getD j 0 + diff * diff)) variance) variance
  let variance := forLoop feat_dim (fun j variance =>
    variance.set j (variance.getD j 0 / (num_frames : α))) variance
  -- standard deviation
  let stddev : List α := List.replicate feat_dim.toNat 0
  let stddev := forLoop feat_dim (fun j stddev =>
    stddev.set j (sqrt (max (variance.getD j 0) 0 + 1e-8))) stddev
  -- normalise the data
  forLoop num_frames (fun i p =>
    forLoop feat_dim (fun j p =>
      p.set (flatIndex feat_dim i j)
        ((p.getD (flatIndex feat_dim i j) 0 - mean.getD j 0) / stddev.getD j 0)) p) p

/-! ## `IsReady` and `Compute` -/

/-- A line written with `SHERPA_ONNX_LOGE`. -/
inductive LogLine where
  | notReady (num_frames : Int)
  | unsupportedNormalizeType (name : String)
  deriving DecidableEq, Repr

/-- How a call ends: it returns a vector, or the process ends with `exit(status)`. -/
inductive Completion (α : Type) where
  | returned (ans : List α)
  | exited (status : Int)
  deriving DecidableEq, Repr

/-- Everything a `Compute` call does: the stream it leaves, the `GetFrames` calls it made
(start, count), the inputs of every model run, the log lines, and how it ended. -/
structure ComputeResult (α : Type) where
  stream : OnlineStream α
  getFramesCalls : List (Int × Int)
  modelCalls : List (Tensor α × Tensor Int)
  logs : List LogLine
  completion : Completion α

/-- The method `IsReady(s)`. -/
def IsReady {α : Type} (s : OnlineStream α) : Bool :=
  decide (s.GetNumProcessedFrames < s.NumFramesReady)

/-- The padding step of `Compute` (lines 81-84). -/
def padFrames {α : Type} [Zero α] (features : List α) (num_frames feat_dim : Int) : List α :=
  if Int.tmod num_frames 16 ≠ 0 then
    let pad := wrap32 (16 - Int.tmod num_frames 16)
    resize features (toSizeT (wrap32 (wrap32 (num_frames + pad) * feat_dim)))
  else features

/-- The method `Compute(s)`. -/
def Compute {α : Type} [LinearOrderedField α] (sqrt : α → α)
    (model_ : SpeakerEmbeddingExtractorNeMoModel α) (s : OnlineStream α) : ComputeResult α :=
  let num_frames := wrap32 (s.NumFramesReady - s.GetNumProcessedFrames)
  if num_frames ≤ 0 then
    ⟨s, [], [], [LogLine.notReady num_frames], Completion.returned []⟩
  else
    let features := s.GetFrames s.GetNumProcessedFrames num_frames
    let s1 : OnlineStream α :=
      ⟨s.NumFramesReady, wrap32 (s.GetNumProcessedFrames + num_frames), s.GetFrames⟩
    let calls := [(s.GetNumProcessedFrames, num_frames)]
    let feat_dim := wrap32 ((features.length : Int) / num_frames)
    let meta_data := model_.GetMetaData
    let run (features : List α) : ComputeResult α :=
      let features := padFrames features num_frames feat_dim
      let x : Tensor α := ⟨[1, num_frames, feat_dim], features⟩
      let x := Transpose12 x
      let x_lens : Int := num_frames
      let x_lens_tensor : Tensor Int := ⟨[1], [x_lens]⟩
      let embedding := model_.Compute x x_lens_tensor
      let embedding_shape := embedding.shape
      let n := toSizeT (embedding_shape.getD 1 0)
      let ans := (List.range n).map fun k => embedding.data.getD k 0
      ⟨s1, calls, [(x, x_lens_tensor)], [], Completion.returned ans⟩
    if meta_data.feature_normalize_type ≠ "" then
      if meta_data.feature_normalize_type = "per_feature" then
        run (NormalizePerFeature sqrt features num_frames feat_dim)
      else
        ⟨s1, calls, [], [LogLine.unsupportedNormalizeType meta_data.feature_normalize_type],
          Completion.exited (-1)⟩
    else run features

/-! ## The normalisation in the words of the specification -/

/-- Entry `p[i, j]` of the row-major `num_frames × feat_dim` matrix stored in `p`. -/
def entry {α : Type} [Zero α] (p : List α) (feat_dim i j : Nat) : α :=
  p.getD (i * feat_dim + j) 0

/-- The column mean in the words of the specification:
`mean[j] = (1/num_frames) · Σ_i p[i,j]`. -/
def specMean {α : Type} [LinearOrderedField α] (p : List α) (num_frames feat_dim j : Nat) : α :=
  (1 / (num_frames : α)) * ∑ i ∈ Finset.range num_frames, entry p feat_dim i j

/-- The biased column variance in the words of the specification:
`variance[j] = (1/num_frames) · Σ_i (p[i,j] − mean[j])²`. -/
def specVariance {α : Type} [LinearOrderedField α] (p : List α) (num_frames feat_dim j : Nat) :
    α :=
  (1 / (num_frames : α)) *
    ∑ i ∈ Finset.range num_frames, (entry p feat_dim i j - specMean p num_frames feat_dim j) ^ 2

/-- The guarded deviation in the words of the specification:
`stddev[j] = sqrt(max(variance[j], 0) + ε)` with `ε = 1e-8`. -/
def specStddev {α : Type} [LinearOrderedField α] (sqrt : α → α) (p : List α)
    (num_frames feat_dim j : Nat) : α :=
  sqrt (max (specVariance p num_frames feat_dim j) 0 + 1e-8)

/-! ## Concrete streams and models -/

/-- A stream over `ℚ` whose frames have `dim` features; feature `k` of the window starting at
frame `start` holds the number `start * dim + k`. -/
def exampleStream (ready processed : Int) (dim : Nat) : OnlineStream ℚ :=
  ⟨ready, processed, fun start n =>
    (List.range (n.toNat * dim)).map fun k => ((start * dim + k : Int) : ℚ)⟩

/-- A model with the given normalisation type whose network returns the first two values of its
input as a `[1, 2]` tensor. -/
def exampleModel (t : String) : SpeakerEmbeddingExtractorNeMoModel ℚ :=
  ⟨⟨t⟩, fun x _ => ⟨[1, 2], x.data.take 2⟩⟩

/-- A stream with two frames ready whose reader hands out seven values. -/
def raggedStream : OnlineStream ℚ := ⟨2, 0, fun _ _ => [1, 2, 3, 4, 5, 6, 7]⟩

/-- A `2 × 2` matrix over `ℝ`: column 0 is `(1, 3)`, column 1 is the constant `(5, 5)`. -/
def exampleMatrix : List ℝ := [1, 5, 3, 5]

/-! ## The divisions of `NormalizePerFeature` and `Compute` -/

/-- The vector `mean` of `NormalizePerFeature` when its two loops are done (lines 117-127). -/
def NormalizePerFeature_mean {α : Type} [LinearOrderedField α]
    (p : List α) (num_frames feat_dim : Int) : List α :=
  let mean : List α := List.replicate feat_dim.toNat 0
  let mean := forLoop num_frames (fun i mean =>
    forLoop feat_dim (fun j mean =>
      mean.set j (mean.getD j 0 + p.getD (flatIndex feat_dim i j) 0)) mean) mean
  forLoop feat_dim (fun j mean =>
    mean.set j (mean.getD j 0 / (num_frames : α))) mean

/-- The vector `stddev` of `NormalizePerFeature` when its loop is done (lines 130-146). -/
def NormalizePerFeature_stddev {α : Type} [LinearOrderedField α] (sqrt : α → α)
    (p : List α) (num_frames feat_dim : Int) : List α :=
  let mean := NormalizePerFeature_mean p num_frames feat_dim
  let variance : List α := List.replicate feat_dim.toNat 0
  let variance := forLoop num_frames (fun i variance =>
    forLoop feat_dim (fun j variance =>
      let diff := p.getD (flatIndex feat_dim i j) 0 - mean.getD j 0
      variance.set j (variance.getD j 0 + diff * diff)) variance) variance
  let variance := forLoop feat_dim (fun j variance =>
    variance.set j (variance.getD j 0 / (num_frames : α))) variance
  let stddev : List α := List.replicate feat_dim.toNat 0
  forLoop feat_dim (fun j stddev =>
    stddev.set j (sqrt (max (variance.getD j 0) 0 + 1e-8))) stddev

/-- The divisors of the divisions `NormalizePerFeature` executes, in program order:
`mean[j] /= num_frames` (line 126), `variance[j] /= num_frames` (line 138) and
`... / stddev[j]` (line 151). -/
def NormalizePerFeature_divisors {α : Type} [LinearOrderedField α] (sqrt : α → α)
    (p : List α) (num_frames feat_dim : Int) : List α :=
  ((List.range feat_dim.toNat).map fun _ => (num_frames : α)) ++
  ((List.range feat_dim.toNat).map fun _ => (num_frames : α)) ++
  ((List.range num_frames.toNat).flatMap fun _ =>
    (List.range feat_dim.toNat).map fun j =>
      (NormalizePerFeature_stddev sqrt p num_frames feat_dim).getD j 0)

/-- The divisors of the integer divisions and remainders `Compute` executes, in program order:
`features.size() / num_frames` (line 68) and `num_frames % 16` (lines 81 and 82). -/
def Compute_integerDivisors {α : Type} (model_ : SpeakerEmbeddingExtractorNeMoModel α)
    (s : OnlineStream α) : List Int :=
  let num_frames := wrap32 (s.NumFramesReady - s.GetNumProcessedFrames)
  if num_frames ≤ 0 then []
  else
    let padding : List Int := if Int.tmod num_frames 16 ≠ 0 then [16, 16] else [16]
    let meta_data := model_.GetMetaData
    if meta_data.feature_normalize_type ≠ "" then
      if meta_data.feature_normalize_type = "per_feature" then num_frames :: padding
      else [num_frames]
    else num_frames :: padding

/-- The divisors of the floating-point divisions `Compute` executes: those of the
`NormalizePerFeature` call of line 73, when it is made. -/
def Compute_floatDivisors {α : Type} [LinearOrderedField α] (sqrt : α → α)
    (model_ : SpeakerEmbeddingExtractorNeMoModel α) (s : OnlineStream α) : List α :=
  let num_frames := wrap32 (s.NumFramesReady - s.GetNumProcessedFrames)
  if num_frames ≤ 0 then []
  else
    let features := s.GetFrames s.GetNumProcessedFrames num_frames
    let feat_dim := wrap32 ((features.length : Int) / num_frames)
    let meta_data := model_.GetMetaData
    if meta_data.feature_normalize_type ≠ "" then
      if meta_data.feature_normalize_type = "per_feature" then
        NormalizePerFeature_divisors sqrt features num_frames feat_dim
      else []
    else []

/-! ## Padding and runs -/

/-- The smallest multiple of 16 that is at least `n`. -/
def paddedFrameCount (n : Nat) : Nat := (n + 15) / 16 * 16

/-- What happens to a stream between and at calls: new frames arrive, or `Compute` is called. -/
inductive StreamEvent where
  | arrive (count : Nat)
  | compute
  deriving DecidableEq, Repr

/-- A stream together with the ranges `(start, count)` read by the `GetFrames` calls so far. -/
structure RunState (α : Type) where
  stream : OnlineStream α
  extracted : List (Int × Int)

/-- Modelled from the spec: frame arrival belongs to the stream front end, which is not among
the sources. Spec §3: `ready` is a monotonically non-decreasing count of the frames available;
an arrival of `count` frames adds `count` to it and leaves the cursor alone. -/
def arriveFrames {α : Type} (s : OnlineStream α) (count : Nat) : OnlineStream α :=
  ⟨s.NumFramesReady + count, s.GetNumProcessedFrames, s.GetFrames⟩

/-- One event of a run; a `Compute` call adds its `GetFrames` calls to the record. -/
def runStep {α : Type} [LinearOrderedField α] (sqrt : α → α)
    (model_ : SpeakerEmbeddingExtractorNeMoModel α) (st : RunState α) :
    StreamEvent → RunState α
  | StreamEvent.arrive count => ⟨arriveFrames st.stream count, st.extracted⟩
  | StreamEvent.compute =>
    ⟨(Compute sqrt model_ st.stream).stream,
      st.extracted ++ (Compute sqrt model_ st.stream).getFramesCalls⟩

/-- A run: the events in order, from a given state. -/
def runEvents {α : Type} [LinearOrderedField α] (sqrt : α → α)
    (model_ : SpeakerEmbeddingExtractorNeMoModel α) (st : RunState α)
    (events : List StreamEvent) : RunState α :=
  events.foldl (runStep sqrt model_) st

/-- The number of frames that arrive during the events. -/
def totalArrivals : List StreamEvent → Nat
  | [] => 0
  | StreamEvent.arrive count :: rest => count + totalArrivals rest
  | StreamEvent.compute :: rest => totalArrivals rest

/-- The ranges follow one another from frame `a` to frame `b` without gap or overlap, and none
of them is empty. -/
def Contiguous : Int → List (Int × Int) → Int → Prop
  | a, [], b => a = b
  | a, c :: rest, b => c.1 = a ∧ 0 < c.2 ∧ Contiguous (a + c.2) rest b

instance instDecidableContiguous : (a : Int) → (l : List (Int × Int)) → (b : Int) →
    Decidable (Contiguous a l b)
  | a, [], b => by unfold Contiguous; infer_instance
  | a, c :: rest, b => by
    unfold Contiguous
    exact @instDecidableAnd _ _ _ (@instDecidableAnd _ _ _ (instDecidableContiguous _ rest b))

/-- The number of recorded ranges that contain frame `f`. -/
def timesExtracted (ranges : List (Int × Int)) (f : Int) : Nat :=
  ranges.countP fun c => decide (c.1 ≤ f ∧ f < c.1 + c.2)

/-! ## More concrete streams, models and matrices -/

/-- A stream with seventeen frames ready and ten processed whose unconsumed frames are those of
`exampleStream 7 0 4`. -/
def shiftedStream : OnlineStream ℚ :=
  ⟨17, 10, fun start n => (exampleStream 7 0 4).GetFrames (start - 10) n⟩

/-- A run: a call, four more frames, two calls. -/
def exampleEvents : List StreamEvent :=
  [StreamEvent.compute, StreamEvent.arrive 4, StreamEvent.compute, StreamEvent.compute]

/-- Per-column offsets: 10 for column 0 and 20 for the others. -/
def exampleOffsets : Nat → ℝ := fun j => if j = 0 then 10 else 20

/-- The example matrix with the example offsets added. -/
def shiftedMatrix : List ℝ := [11, 25, 13, 25]

/-- A stream over `ℝ` with two frames ready whose reader hands out the example matrix. -/
def realStream : OnlineStream ℝ := ⟨2, 0, fun _ _ => exampleMatrix⟩

/-- A model over `ℝ` with per-feature normalisation whose network returns its input. -/
def realModel : SpeakerEmbeddingExtractorNeMoModel ℝ := ⟨⟨"per_feature"⟩, fun x _ => x⟩

/-! ## Loops -/

/-- Inside the `int32_t` range the reduction changes nothing. -/
theorem wrap32_eq_self {x : Int} (h1 : -2147483648 ≤ x) (h2 : x < 2147483648) : wrap32 x = x := by
  unfold wrap32; omega

/-- A loop with bound zero leaves the state alone. -/
theorem forLoop_zero {σ : Type} (body : Nat → σ → σ) (init : σ) :
    forLoop ((0 : Nat) : Int) body init = init := by
  simp [forLoop]

/-- The last iteration of a loop. -/
theorem forLoop_succ {σ : Type} (n : Nat) (body : Nat → σ → σ) (init : σ) :
    forLoop ((n + 1 : Nat) : Int) body init = body n (forLoop (n : Int) body init) := by
  simp [forLoop, List.range_succ, List.foldl_append]

/-- Without overflow the flat offset is `i * d + j`. -/
theorem flatIndex_eq (d i j : Nat) (h : i * d + j < 2147483648) :
    flatIndex (d : Int) i j = i * d + j := by
  unfold flatIndex
  have h1 : ((i : Int) * (d : Int)) = ((i * d : Nat) : Int) := by push_cast; ring
  rw [h1]
  generalize i * d = m at h ⊢
  have h2 : wrap32 (m : Int) = (m : Int) := wrap32_eq_self (by omega) (by omega)
  rw [h2, wrap32_eq_self (by omega) (by omega)]
  omega

/-- Reading the cell just written. -/
theorem getD_set_self {α : Type} (l : List α) (q : Nat) (a z : α) (h : q < l.length) :
    (l.set q a).getD q z = a := by
  simp [List.getD_eq_getElem?_getD, List.getElem?_set, h]

/-- Reading a cell other than the one written. -/
theorem getD_set_other {α : Type} (l : List α) (q r : Nat) (a z : α) (h : q ≠ r) :
    (l.set q a).getD r z = l.getD r z := by
  simp [List.getD_eq_getElem?_getD, List.getElem?_set, h]

/-- A loop that rewrites one cell per iteration, at pairwise different positions. -/
theorem forLoop_set {α : Type} (z : α) (pos : Nat → Nat) (g : Nat → α → α) (l0 : List α)
    (m : Nat) (hinj : ∀ a < m, ∀ b < m, pos a = pos b → a = b) :
    (forLoop (m : Int) (fun k l => l.set (pos k) (g k (l.getD (pos k) z))) l0).length
        = l0.length ∧
    (∀ k < m, pos k < l0.length →
      (forLoop (m : Int) (fun k l => l.set (pos k) (g k (l.getD (pos k) z))) l0).getD (pos k) z
        = g k (l0.getD (pos k) z)) ∧
    (∀ q, (∀ k < m, pos k ≠ q) →
      (forLoop (m : Int) (fun k l => l.set (pos k) (g k (l.getD (pos k) z))) l0).getD q z
        = l0.getD q z) := by
  induction m with
  | zero =>
    refine ⟨by simp [forLoop], fun k hk => absurd hk (Nat.not_lt_zero k), fun q _ => by simp [forLoop]⟩
  | succ m ih =>
    obtain ⟨ihl, ihk, ihq⟩ := ih (fun a ha b hb => hinj a (by omega) b (by omega))
    rw [forLoop_succ]
    refine ⟨by rw [List.length_set]; exact ihl, ?_, ?_⟩
    · intro k hk hpos
      by_cases hkm : k = m
      · subst hkm
        rw [getD_set_self _ _ _ _ (by rw [ihl]; exact hpos)]
        rw [ihq (pos k) (fun a ha hEq => by
          have := hinj a (by omega) k (by omega) hEq; omega)]
      · have hne : pos m ≠ pos k := fun hEq => hkm (hinj m (by omega) k hk hEq).symm
        rw [getD_set_other _ _ _ _ _ hne]
        exact ihk k (by omega) hpos
    · intro q hq
      rw [getD_set_other _ _ _ _ _ (hq m (by omega))]
      exact ihq q (fun k hk => hq k (by omega))


/-- The two nested loops of an accumulation pass: every `acc[j]` receives `f i j` for
each row `i`. -/
theorem accumulate_loop {α : Type} [AddCommMonoid α] (f : Nat → Nat → α) (d n : Nat)
    (acc : List α) (hlen : acc.length = d) :
    (forLoop (n : Int) (fun i acc =>
        forLoop (d : Int) (fun j acc => acc.set j (acc.getD j 0 + f i j)) acc) acc).length = d ∧
    ∀ j < d,
      (forLoop (n : Int) (fun i acc =>
        forLoop (d : Int) (fun j acc => acc.set j (acc.getD j 0 + f i j)) acc) acc).getD j 0
        = acc.getD j 0 + ∑ i ∈ Finset.range n, f i j := by
  induction n with
  | zero => exact ⟨by simpa [forLoop] using hlen, fun j _ => by simp [forLoop]⟩
  | succ n ih =>
    obtain ⟨ihl, ihj⟩ := ih
    rw [forLoop_succ]
    obtain ⟨hl, hk, _⟩ := forLoop_set (0 : α) (fun j => j) (fun j x => x + f n j)
      (forLoop (n : Int) (fun i acc =>
        forLoop (d : Int) (fun j acc => acc.set j (acc.getD j 0 + f i j)) acc) acc)
      d (fun a _ b _ h => h)
    refine ⟨hl.trans ihl, fun j hj => ?_⟩
    rw [hk j hj (by rw [ihl]; exact hj), ihj j hj, Finset.sum_range_succ, add_assoc]

/-- The two nested loops of the normalisation pass: cell `idx i j` is rewritten once, from its
own old content. -/
theorem rewrite_loop {α : Type} (z : α) (h : Nat → α → α) (idx : Nat → Nat → Nat) (d n : Nat)
    (p : List α) (hlen : n * d ≤ p.length)
    (hidx : ∀ i < n, ∀ j < d, idx i j = i * d + j) :
    (forLoop (n : Int) (fun i p =>
        forLoop (d : Int) (fun j p => p.set (idx i j) (h j (p.getD (idx i j) z))) p) p).length
        = p.length ∧
    (∀ i < n, ∀ j < d,
      (forLoop (n : Int) (fun i p =>
        forLoop (d : Int) (fun j p => p.set (idx i j) (h j (p.getD (idx i j) z))) p) p).getD
          (i * d + j) z = h j (p.getD (i * d + j) z)) ∧
    (∀ q, n * d ≤ q →
      (forLoop (n : Int) (fun i p =>
        forLoop (d : Int) (fun j p => p.set (idx i j) (h j (p.getD (idx i j) z))) p) p).getD q z
        = p.getD q z) := by
  induction n with
  | zero =>
    refine ⟨by simp [forLoop], fun i hi => absurd hi (Nat.not_lt_zero i), fun q _ => by
      simp [forLoop]⟩
  | succ n ih =>
    have hmul : (n + 1) * d = n * d + d := Nat.succ_mul n d
    obtain ⟨ihl, ihc, ihq⟩ := ih (by omega) (fun i hi j hj => hidx i (by omega) j hj)
    rw [forLoop_succ]
    obtain ⟨hl, hk, hq⟩ := forLoop_set z (fun j => idx n j) h
      (forLoop (n : Int) (fun i p =>
        forLoop (d : Int) (fun j p => p.set (idx i j) (h j (p.getD (idx i j) z))) p) p)
      d (fun a ha b hb hab => by
        have hab2 : idx n a = idx n b := hab
        rw [hidx n (by omega) a ha, hidx n (by omega) b hb] at hab2; omega)
    refine ⟨hl.trans ihl, ?_, ?_⟩
    · intro i hi j hj
      by_cases hin : i = n
      · subst hin
        have := hk j hj (by rw [ihl, hidx i (by omega) j hj]; omega)
        rw [hidx i (by omega) j hj] at this
        rw [this, ihq (i * d + j) (by omega)]
      · have hlt : i < n := by omega
        have hle : (i + 1) * d ≤ n * d := Nat.mul_le_mul_right d hlt
        rw [Nat.succ_mul] at hle
        rw [hq (i * d + j) (fun k hk hEq => by
          rw [hidx n (by omega) k hk] at hEq; omega)]
        exact ihc i hlt j hj
    · intro q hqle
      rw [hq q (fun k hk hEq => by rw [hidx n (by omega) k hk] at hEq; omega)]
      exact ihq q (by omega)


/-- The three passes of `NormalizePerFeature`, entry by entry: the buffer keeps its length and
entry `(i, j)` becomes `(p[i,j] − mean[j]) / stddev[j]`, with the mean, variance and deviation
of the specification. -/
theorem NormalizePerFeature_entries {α : Type} [LinearOrderedField α] (sqrt : α → α)
    (p : List α) (n d : Nat) (hlen : p.length = n * d) (hrange : n * d < 2147483648) :
    (NormalizePerFeature sqrt p (n : Int) (d : Int)).length = p.length ∧
    ∀ i < n, ∀ j < d,
      entry (NormalizePerFeature sqrt p (n : Int) (d : Int)) d i j =
        (entry p d i j - specMean p n d j) / specStddev sqrt p n d j := by
  have hidx : ∀ i < n, ∀ j < d, flatIndex (d : Int) i j = i * d + j := by
    intro i hi j hj
    have hle : (i + 1) * d ≤ n * d := Nat.mul_le_mul_right d hi
    rw [Nat.succ_mul] at hle
    exact flatIndex_eq d i j (by omega)
  unfold NormalizePerFeature
  lift_lets
  extract_lets zeros msum mean vsum variance stddev
  have hzl : zeros.length = d := by simp [zeros]
  have hz : ∀ j < d, zeros.getD j 0 = (0 : α) := by
    intro j hj
    simp [zeros, List.getD_eq_getElem?_getD, List.getElem?_replicate, hj]
  -- first pass
  have h1 : msum.length = d ∧ ∀ j < d, msum.getD j 0 =
      zeros.getD j 0 + ∑ i ∈ Finset.range n, p.getD (flatIndex (d : Int) i j) 0 :=
    accumulate_loop (fun i j => p.getD (flatIndex (d : Int) i j) 0) d n zeros hzl
  have h2 := forLoop_set (0 : α) (fun j => j) (fun _ x => x / (((n : Int)) : α)) msum d
    (fun a _ b _ h => h)
  have hmean : ∀ j < d, mean.getD j 0 = specMean p n d j := by
    intro j hj
    have h : mean.getD j 0 = msum.getD j 0 / (((n : Int)) : α) :=
      h2.2.1 j hj (by rw [h1.1]; exact hj)
    have hs : ∑ i ∈ Finset.range n, p.getD (flatIndex (d : Int) i j) 0
        = ∑ i ∈ Finset.range n, entry p d i j :=
      Finset.sum_congr rfl (fun i hi => by
        rw [hidx i (Finset.mem_range.mp hi) j hj, entry])
    rw [h, h1.2 j hj, hz j hj, zero_add, hs, specMean, Int.cast_natCast, one_div,
      div_eq_inv_mul]
  -- second pass
  have h3 : vsum.length = d ∧ ∀ j < d, vsum.getD j 0 =
      zeros.getD j 0 + ∑ i ∈ Finset.range n,
        (p.getD (flatIndex (d : Int) i j) 0 - mean.getD j 0) *
          (p.getD (flatIndex (d : Int) i j) 0 - mean.getD j 0) :=
    accumulate_loop (fun i j => (p.getD (flatIndex (d : Int) i j) 0 - mean.getD j 0) *
          (p.getD (flatIndex (d : Int) i j) 0 - mean.getD j 0)) d n zeros hzl
  have h4 := forLoop_set (0 : α) (fun j => j) (fun _ x => x / (((n : Int)) : α)) vsum d
    (fun a _ b _ h => h)
  have hvar : ∀ j < d, variance.getD j 0 = specVariance p n d j := by
    intro j hj
    have h : variance.getD j 0 = vsum.getD j 0 / (((n : Int)) : α) :=
      h4.2.1 j hj (by rw [h3.1]; exact hj)
    have hs : ∑ i ∈ Finset.range n,
          (p.getD (flatIndex (d : Int) i j) 0 - mean.getD j 0) *
            (p.getD (flatIndex (d : Int) i j) 0 - mean.getD j 0)
        = ∑ i ∈ Finset.range n, (entry p d i j - specMean p n d j) ^ 2 :=
      Finset.sum_congr rfl (fun i hi => by
        rw [hidx i (Finset.mem_range.mp hi) j hj, hmean j hj, sq, entry])
    rw [h, h3.2 j hj, hz j hj, zero_add, hs, specVariance, Int.cast_natCast, one_div,
      div_eq_inv_mul]
  -- standard deviation
  have h5 := forLoop_set (0 : α) (fun j => j)
    (fun j _ => sqrt (max (variance.getD j 0) 0 + 1e-8)) zeros d (fun a _ b _ h => h)
  have hstd : ∀ j < d, stddev.getD j 0 = specStddev sqrt p n d j := by
    intro j hj
    have h : stddev.getD j 0 = sqrt (max (variance.getD j 0) 0 + 1e-8) :=
      h5.2.1 j hj (by rw [hzl]; exact hj)
    rw [h, hvar j hj, specStddev]
  -- normalisation
  obtain ⟨h6l, h6, _⟩ := rewrite_loop (0 : α)
    (fun j x => (x - mean.getD j 0) / stddev.getD j 0) (flatIndex (d : Int)) d n p
    (by omega) hidx
  refine ⟨h6l, fun i hi j hj => ?_⟩
  have h : entry (forLoop (n : Int) (fun i p =>
      forLoop (d : Int) (fun j p =>
        p.set (flatIndex (d : Int) i j)
          ((p.getD (flatIndex (d : Int) i j) 0 - mean.getD j 0) / stddev.getD j 0)) p) p) d i j
      = (entry p d i j - mean.getD j 0) / stddev.getD j 0 := h6 i hi j hj
  rw [h, hmean j hj, hstd j hj]


/-- The entries of an output column add up to zero. -/
theorem NormalizePerFeature_column_sum {α : Type} [LinearOrderedField α] (sqrt : α → α)
    (p : List α) (n d : Nat) (hn : 1 ≤ n) (hlen : p.length = n * d)
    (hrange : n * d < 2147483648) (j : Nat) (hj : j < d) :
    ∑ i ∈ Finset.range n, entry (NormalizePerFeature sqrt p (n : Int) (d : Int)) d i j = 0 := by
  have hent := (NormalizePerFeature_entries sqrt p n d hlen hrange).2
  rw [Finset.sum_congr rfl (fun i hi => hent i (Finset.mem_range.mp hi) j hj)]
  rw [← Finset.sum_div, Finset.sum_sub_distrib, Finset.sum_const, Finset.card_range,
    nsmul_eq_mul, specMean]
  have hn0 : (n : α) ≠ 0 := by
    have : (0 : α) < n := by exact_mod_cast hn
    exact ne_of_gt this
  have : (n : α) * (1 / (n : α) * ∑ i ∈ Finset.range n, entry p d i j)
      = ∑ i ∈ Finset.range n, entry p d i j := by
    field_simp
  rw [this, sub_self, zero_div]

/-- The mean of an output column, in the words of the specification, is zero. -/
theorem NormalizePerFeature_specMean {α : Type} [LinearOrderedField α] (sqrt : α → α)
    (p : List α) (n d : Nat) (hn : 1 ≤ n) (hlen : p.length = n * d)
    (hrange : n * d < 2147483648) (j : Nat) (hj : j < d) :
    specMean (NormalizePerFeature sqrt p (n : Int) (d : Int)) n d j = 0 := by
  rw [specMean, NormalizePerFeature_column_sum sqrt p n d hn hlen hrange j hj, mul_zero]


/-! ## The two paths of `Compute` -/

/-- For frame counts the subtraction `NumFramesReady() - GetNumProcessedFrames()` does not
overflow. -/
theorem num_frames_eq {α : Type} {s : OnlineStream α} (hv : s.Valid) :
    wrap32 (s.NumFramesReady - s.GetNumProcessedFrames)
      = s.NumFramesReady - s.GetNumProcessedFrames := by
  obtain ⟨h1, h2, h3, h4⟩ := hv
  exact wrap32_eq_self (by omega) (by omega)

/-- The early return of `Compute`. -/
theorem Compute_not_ready_eq {α : Type} [LinearOrderedField α] (sqrt : α → α)
    (model_ : SpeakerEmbeddingExtractorNeMoModel α) (s : OnlineStream α) (hv : s.Valid)
    (h : s.NumFramesReady - s.GetNumProcessedFrames ≤ 0) :
    Compute sqrt model_ s =
      ⟨s, [], [], [LogLine.notReady (s.NumFramesReady - s.GetNumProcessedFrames)],
        Completion.returned []⟩ := by
  unfold Compute
  simp only [num_frames_eq hv]
  rw [if_pos h]

/-- The path of `Compute` past the early return, with the cursor arithmetic carried out. -/
theorem Compute_ready_eq {α : Type} [LinearOrderedField α] (sqrt : α → α)
    (model_ : SpeakerEmbeddingExtractorNeMoModel α) (s : OnlineStream α) (hv : s.Valid)
    (h : s.GetNumProcessedFrames < s.NumFramesReady) :
    Compute sqrt model_ s =
      let num_frames := s.NumFramesReady - s.GetNumProcessedFrames
      let features := s.GetFrames s.GetNumProcessedFrames num_frames
      let s1 : OnlineStream α := ⟨s.NumFramesReady, s.NumFramesReady, s.GetFrames⟩
      let calls := [(s.GetNumProcessedFrames, num_frames)]
      let feat_dim := wrap32 ((features.length : Int) / num_frames)
      let run (features : List α) : ComputeResult α :=
        let x := Transpose12 ⟨[1, num_frames, feat_dim], padFrames features num_frames feat_dim⟩
        let x_lens_tensor : Tensor Int := ⟨[1], [num_frames]⟩
        let embedding := model_.Compute x x_lens_tensor
        ⟨s1, calls, [(x, x_lens_tensor)], [],
          Completion.returned
            ((List.range (toSizeT (embedding.shape.getD 1 0))).map fun k =>
              embedding.data.getD k 0)⟩
      if model_.GetMetaData.feature_normalize_type ≠ "" then
        if model_.GetMetaData.feature_normalize_type = "per_feature" then
          run (NormalizePerFeature sqrt features num_frames feat_dim)
        else
          ⟨s1, calls, [],
            [LogLine.unsupportedNormalizeType model_.GetMetaData.feature_normalize_type],
            Completion.exited (-1)⟩
      else run features := by
  have hc : wrap32 (s.GetNumProcessedFrames + (s.NumFramesReady - s.GetNumProcessedFrames))
      = s.NumFramesReady := by
    obtain ⟨h1, h2, h3, h4⟩ := hv
    rw [wrap32_eq_self (by omega) (by omega)]; omega
  unfold Compute
  simp only [num_frames_eq hv, hc]
  rw [if_neg (by omega)]

/-! ## Claims about `Compute`: cursor and not-ready path -/

/-- C1: when `NumFramesReady − NumProcessedFrames ≤ 0` (in particular when the two counters are
equal), `Compute` returns the empty vector, reads no frames, does not invoke the model, and
leaves the stream (the processed cursor and the ready count) unchanged. -/
theorem Compute_not_ready {α : Type} [LinearOrderedField α] (sqrt : α → α)
    (model_ : SpeakerEmbeddingExtractorNeMoModel α) (s : OnlineStream α) (hv : s.Valid)
    (h : s.NumFramesReady - s.GetNumProcessedFrames ≤ 0) :
    (Compute sqrt model_ s).completion = Completion.returned [] ∧
    (Compute sqrt model_ s).modelCalls = [] ∧
    (Compute sqrt model_ s).getFramesCalls = [] ∧
    (Compute sqrt model_ s).stream = s := by
  rw [Compute_not_ready_eq sqrt model_ s hv h]
  exact ⟨rfl, rfl, rfl, rfl⟩

/-- C1 at a stream with five frames ready and five processed. -/
theorem Compute_not_ready_witness :
    (exampleStream 5 5 4).Valid ∧
    (exampleStream 5 5 4).NumFramesReady - (exampleStream 5 5 4).GetNumProcessedFrames ≤ 0 ∧
    (Compute id (exampleModel "per_feature") (exampleStream 5 5 4)).completion
      = Completion.returned [] ∧
    (Compute id (exampleModel "per_feature") (exampleStream 5 5 4)).modelCalls = [] ∧
    (Compute id (exampleModel "per_feature") (exampleStream 5 5 4)).getFramesCalls = [] ∧
    (Compute id (exampleModel "per_feature") (exampleStream 5 5 4)).stream
      = exampleStream 5 5 4 :=
  ⟨by decide, by decide,
    Compute_not_ready id (exampleModel "per_feature") (exampleStream 5 5 4)
      (by decide) (by decide)⟩

/-- C2: on a ready stream (`processed < ready`) with a supported normalisation type
(`"per_feature"` or empty), `Compute` reads exactly `k = ready − processed` frames starting at
index `processed`, and afterwards the cursor is `processed + k` while `ready` is unchanged. -/
theorem Compute_consumes_ready {α : Type} [LinearOrderedField α] (sqrt : α → α)
    (model_ : SpeakerEmbeddingExtractorNeMoModel α) (s : OnlineStream α) (hv : s.Valid)
    (hlt : s.GetNumProcessedFrames < s.NumFramesReady)
    (ht : model_.GetMetaData.feature_normalize_type = "per_feature" ∨
      model_.GetMetaData.feature_normalize_type = "") :
    (Compute sqrt model_ s).getFramesCalls =
      [(s.GetNumProcessedFrames, s.NumFramesReady - s.GetNumProcessedFrames)] ∧
    (Compute sqrt model_ s).stream.GetNumProcessedFrames =
      s.GetNumProcessedFrames + (s.NumFramesReady - s.GetNumProcessedFrames) ∧
    (Compute sqrt model_ s).stream.NumFramesReady = s.NumFramesReady := by
  rw [Compute_ready_eq sqrt model_ s hv hlt]
  rcases ht with ht | ht <;> simp [ht]

/-- C2 at a stream with ten frames ready and three processed. -/
theorem Compute_consumes_ready_witness :
    (exampleStream 10 3 4).Valid ∧
    (exampleStream 10 3 4).GetNumProcessedFrames < (exampleStream 10 3 4).NumFramesReady ∧
    ((Compute id (exampleModel "per_feature") (exampleStream 10 3 4)).getFramesCalls =
      [((exampleStream 10 3 4).GetNumProcessedFrames,
        (exampleStream 10 3 4).NumFramesReady - (exampleStream 10 3 4).GetNumProcessedFrames)] ∧
    (Compute id (exampleModel "per_feature") (exampleStream 10 3 4)).stream.GetNumProcessedFrames =
      (exampleStream 10 3 4).GetNumProcessedFrames +
        ((exampleStream 10 3 4).NumFramesReady - (exampleStream 10 3 4).GetNumProcessedFrames) ∧
    (Compute id (exampleModel "per_feature") (exampleStream 10 3 4)).stream.NumFramesReady =
      (exampleStream 10 3 4).NumFramesReady) :=
  ⟨by decide, by decide,
    Compute_consumes_ready id (exampleModel "per_feature") (exampleStream 10 3 4)
      (by decide) (by decide) (Or.inl rfl)⟩

/-- C3, the code at ten ready frames of four features: the buffer is padded to `16 * 4` values,
but the tensor is built with the shape `[1, 10, 4]` and reaches the model as `[1, 4, 10]`; its
time dimension is `num_frames = 10`, not the padded `16`. -/
theorem Compute_tensor_shape_ten_frames :
    (exampleStream 10 0 4).Valid ∧
    ((Compute id (exampleModel "") (exampleStream 10 0 4)).modelCalls.map
      fun c => c.1.shape) = [[1, 4, 10]] ∧
    ((Compute id (exampleModel "") (exampleStream 10 0 4)).modelCalls.map
      fun c => c.1.shape) ≠ [[1, 4, 16]] ∧
    (padFrames ((exampleStream 10 0 4).GetFrames 0 10) 10 4).length = 16 * 4 := by
  decide

/-! ## Claims about `NormalizePerFeature` -/

/-- C4: for a matrix `p` of `num_frames ≥ 1` rows and `feat_dim` columns, `NormalizePerFeature`
over the reals keeps the buffer length and replaces every entry `p[i,j]` by
`(p[i,j] − mean[j]) / sqrt(max(variance[j], 0) + 1e-8)`, where `mean[j]` and `variance[j]` are
the mean and the biased variance of the original column `j`: the three-pass loop equals the
closed form. -/
theorem NormalizePerFeature_closed_form (p : List ℝ) (num_frames feat_dim : Nat)
    (hn : 1 ≤ num_frames) (hlen : p.length = num_frames * feat_dim)
    (hrange : num_frames * feat_dim < 2147483648) :
    (NormalizePerFeature Real.sqrt p (num_frames : Int) (feat_dim : Int)).length = p.length ∧
    ∀ i < num_frames, ∀ j < feat_dim,
      entry (NormalizePerFeature Real.sqrt p (num_frames : Int) (feat_dim : Int)) feat_dim i j =
        (entry p feat_dim i j - specMean p num_frames feat_dim j) /
          Real.sqrt (max (specVariance p num_frames feat_dim j) 0 + 1e-8) := by
  have _h := hn
  exact NormalizePerFeature_entries Real.sqrt p num_frames feat_dim hlen hrange

/-- C4 at the example matrix. -/
theorem NormalizePerFeature_closed_form_witness :
    1 ≤ 2 ∧ exampleMatrix.length = 2 * 2 ∧ 2 * 2 < 2147483648 ∧
    ((NormalizePerFeature Real.sqrt exampleMatrix ((2 : Nat) : Int) ((2 : Nat) : Int)).length
        = exampleMatrix.length ∧
    ∀ i < 2, ∀ j < 2,
      entry (NormalizePerFeature Real.sqrt exampleMatrix ((2 : Nat) : Int) ((2 : Nat) : Int)) 2 i j =
        (entry exampleMatrix 2 i j - specMean exampleMatrix 2 2 j) /
          Real.sqrt (max (specVariance exampleMatrix 2 2 j) 0 + 1e-8)) :=
  ⟨by decide, by decide, by decide,
    NormalizePerFeature_closed_form exampleMatrix 2 2 (by decide) (by decide) (by decide)⟩

/-- C5: for `num_frames ≥ 1` and every column `j`, constant or not, the entries of output
column `j` of `NormalizePerFeature` over the reals add up to `0`, so the column mean is `0`. -/
theorem NormalizePerFeature_mean_zero (p : List ℝ) (num_frames feat_dim : Nat)
    (hn : 1 ≤ num_frames) (hlen : p.length = num_frames * feat_dim)
    (hrange : num_frames * feat_dim < 2147483648) :
    ∀ j < feat_dim,
      ∑ i ∈ Finset.range num_frames,
        entry (NormalizePerFeature Real.sqrt p (num_frames : Int) (feat_dim : Int)) feat_dim i j
        = 0 ∧
      specMean (NormalizePerFeature Real.sqrt p (num_frames : Int) (feat_dim : Int))
        num_frames feat_dim j = 0 :=
  fun j hj =>
    ⟨NormalizePerFeature_column_sum Real.sqrt p num_frames feat_dim hn hlen hrange j hj,
     NormalizePerFeature_specMean Real.sqrt p num_frames feat_dim hn hlen hrange j hj⟩


/-- C5 at the example matrix. -/
theorem NormalizePerFeature_mean_zero_witness :
    1 ≤ 2 ∧ exampleMatrix.length = 2 * 2 ∧ 2 * 2 < 2147483648 ∧
    ∀ j < 2,
      ∑ i ∈ Finset.range 2,
        entry (NormalizePerFeature Real.sqrt exampleMatrix ((2 : Nat) : Int) ((2 : Nat) : Int)) 2 i j
        = 0 ∧
      specMean (NormalizePerFeature Real.sqrt exampleMatrix ((2 : Nat) : Int) ((2 : Nat) : Int))
        2 2 j = 0 :=
  ⟨by decide, by decide, by decide,
    NormalizePerFeature_mean_zero exampleMatrix 2 2 (by decide) (by decide) (by decide)⟩

/-- C6: for `num_frames ≥ 1` and a column `j` that is not constant, the input variance `v` is
positive and the biased variance of output column `j` of `NormalizePerFeature` over the reals
is `v / (v + 1e-8)`; it differs from `1` by exactly `1e-8 / (v + 1e-8)`. -/
theorem NormalizePerFeature_variance_one (p : List ℝ) (num_frames feat_dim : Nat)
    (hn : 1 ≤ num_frames) (hlen : p.length = num_frames * feat_dim)
    (hrange : num_frames * feat_dim < 2147483648) (j : Nat) (hj : j < feat_dim)
    (hnc : ∃ i < num_frames, ∃ k < num_frames, entry p feat_dim i j ≠ entry p feat_dim k j) :
    0 < specVariance p num_frames feat_dim j ∧
    specVariance (NormalizePerFeature Real.sqrt p (num_frames : Int) (feat_dim : Int))
        num_frames feat_dim j
      = specVariance p num_frames feat_dim j / (specVariance p num_frames feat_dim j + 1e-8) ∧
    1 - specVariance (NormalizePerFeature Real.sqrt p (num_frames : Int) (feat_dim : Int))
        num_frames feat_dim j
      = 1e-8 / (specVariance p num_frames feat_dim j + 1e-8) := by
  have hn0 : (0 : ℝ) < num_frames := by exact_mod_cast hn
  -- the input variance is positive
  have hv : 0 < specVariance p num_frames feat_dim j := by
    obtain ⟨i, hi, k, hk, hik⟩ := hnc
    have hex : ∃ a < num_frames, entry p feat_dim a j ≠ specMean p num_frames feat_dim j := by
      by_cases h : entry p feat_dim i j = specMean p num_frames feat_dim j
      · exact ⟨k, hk, fun hk2 => hik (h.trans hk2.symm)⟩
      · exact ⟨i, hi, h⟩
    obtain ⟨a, ha, hne⟩ := hex
    have hsum : 0 < ∑ i ∈ Finset.range num_frames,
        (entry p feat_dim i j - specMean p num_frames feat_dim j) ^ 2 :=
      Finset.sum_pos' (fun i _ => sq_nonneg _)
        ⟨a, Finset.mem_range.mpr ha, sq_pos_of_ne_zero (sub_ne_zero.mpr hne)⟩
    rw [specVariance]
    positivity
  have heps : (0 : ℝ) < specVariance p num_frames feat_dim j + 1e-8 := by positivity
  have hs2 : Real.sqrt (max (specVariance p num_frames feat_dim j) 0 + 1e-8) ^ 2
      = specVariance p num_frames feat_dim j + 1e-8 := by
    rw [max_eq_left hv.le, Real.sq_sqrt heps.le]
  have hm0 := NormalizePerFeature_specMean Real.sqrt p num_frames feat_dim hn hlen hrange j hj
  have hent := (NormalizePerFeature_entries Real.sqrt p num_frames feat_dim hlen hrange).2
  have hsum : ∑ i ∈ Finset.range num_frames,
      (entry (NormalizePerFeature Real.sqrt p (num_frames : Int) (feat_dim : Int)) feat_dim i j
        - specMean (NormalizePerFeature Real.sqrt p (num_frames : Int) (feat_dim : Int))
            num_frames feat_dim j) ^ 2
      = ∑ i ∈ Finset.range num_frames,
          (entry p feat_dim i j - specMean p num_frames feat_dim j) ^ 2
            / (specVariance p num_frames feat_dim j + 1e-8) :=
    Finset.sum_congr rfl (fun i hi => by
      rw [hm0, sub_zero, hent i (Finset.mem_range.mp hi) j hj, specStddev, div_pow, hs2])
  have hout : specVariance (NormalizePerFeature Real.sqrt p (num_frames : Int) (feat_dim : Int))
        num_frames feat_dim j
      = specVariance p num_frames feat_dim j / (specVariance p num_frames feat_dim j + 1e-8) := by
    rw [specVariance, hsum, ← Finset.sum_div, ← mul_div_assoc]
    rfl
  refine ⟨hv, hout, ?_⟩
  rw [hout]
  field_simp


/-- C6 at column 0 of the example matrix. -/
theorem NormalizePerFeature_variance_one_witness :
    1 ≤ 2 ∧ exampleMatrix.length = 2 * 2 ∧ 2 * 2 < 2147483648 ∧ 0 < 2 ∧
    (∃ i < 2, ∃ k < 2, entry exampleMatrix 2 i 0 ≠ entry exampleMatrix 2 k 0) ∧
    (0 < specVariance exampleMatrix 2 2 0 ∧
    specVariance (NormalizePerFeature Real.sqrt exampleMatrix ((2 : Nat) : Int) ((2 : Nat) : Int))
        2 2 0
      = specVariance exampleMatrix 2 2 0 / (specVariance exampleMatrix 2 2 0 + 1e-8) ∧
    1 - specVariance
        (NormalizePerFeature Real.sqrt exampleMatrix ((2 : Nat) : Int) ((2 : Nat) : Int)) 2 2 0
      = 1e-8 / (specVariance exampleMatrix 2 2 0 + 1e-8)) :=
  ⟨by decide, by decide, by decide, by decide,
    ⟨0, by decide, 1, by decide, by norm_num [entry, exampleMatrix]⟩,
    NormalizePerFeature_variance_one exampleMatrix 2 2 (by decide) (by decide) (by decide) 0
      (by decide) ⟨0, by decide, 1, by decide, by norm_num [entry, exampleMatrix]⟩⟩

/-- C7: for `num_frames ≥ 1` and a column `j` whose entries all equal `c`, every entry of output
column `j` of `NormalizePerFeature` over the reals is exactly `0`; the divisor of that column is
`sqrt(1e-8)`, which is positive. -/
theorem NormalizePerFeature_constant_column (p : List ℝ) (num_frames feat_dim : Nat)
    (hn : 1 ≤ num_frames) (hlen : p.length = num_frames * feat_dim)
    (hrange : num_frames * feat_dim < 2147483648) (j : Nat) (hj : j < feat_dim) (c : ℝ)
    (hc : ∀ i < num_frames, entry p feat_dim i j = c) :
    (∀ i < num_frames,
      entry (NormalizePerFeature Real.sqrt p (num_frames : Int) (feat_dim : Int)) feat_dim i j
        = 0) ∧
    specStddev Real.sqrt p num_frames feat_dim j = Real.sqrt 1e-8 ∧
    0 < Real.sqrt 1e-8 := by
  have hn0 : (num_frames : ℝ) ≠ 0 := by
    have : (0 : ℝ) < num_frames := by exact_mod_cast hn
    exact ne_of_gt this
  have hmean : specMean p num_frames feat_dim j = c := by
    rw [specMean, Finset.sum_congr rfl (fun i hi => hc i (Finset.mem_range.mp hi)),
      Finset.sum_const, Finset.card_range, nsmul_eq_mul]
    field_simp
  have hvar : specVariance p num_frames feat_dim j = 0 := by
    rw [specVariance, Finset.sum_eq_zero (fun i hi => by
      rw [hc i (Finset.mem_range.mp hi), hmean, sub_self]; norm_num), mul_zero]
  have hent := (NormalizePerFeature_entries Real.sqrt p num_frames feat_dim hlen hrange).2
  refine ⟨fun i hi => ?_, ?_, Real.sqrt_pos.mpr (by norm_num)⟩
  · rw [hent i hi j hj, hc i hi, hmean, sub_self, zero_div]
  · rw [specStddev, hvar, max_self, zero_add]

/-- C7 at column 1 of the example matrix. -/
theorem NormalizePerFeature_constant_column_witness :
    1 ≤ 2 ∧ exampleMatrix.length = 2 * 2 ∧ 2 * 2 < 2147483648 ∧ 1 < 2 ∧
    (∀ i < 2, entry exampleMatrix 2 i 1 = 5) ∧
    ((∀ i < 2,
      entry (NormalizePerFeature Real.sqrt exampleMatrix ((2 : Nat) : Int) ((2 : Nat) : Int)) 2 i 1
        = 0) ∧
    specStddev Real.sqrt exampleMatrix 2 2 1 = Real.sqrt 1e-8 ∧
    0 < Real.sqrt 1e-8) :=
  have hc : ∀ i < 2, entry exampleMatrix 2 i 1 = 5 := by
    intro i hi
    interval_cases i <;> simp [entry, exampleMatrix]
  ⟨by decide, by decide, by decide, by decide, hc,
    NormalizePerFeature_constant_column exampleMatrix 2 2 (by decide) (by decide) (by decide) 1
      (by decide) 5 hc⟩


/-! ## Claims about `Compute`: what reaches the model -/

/-- C8: on a ready stream with a supported normalisation type, the one length tensor passed to
the model has shape `[1]` and holds the unpadded `num_frames = ready − processed`, whether or
not that number is a multiple of 16. -/
theorem Compute_length_tensor {α : Type} [LinearOrderedField α] (sqrt : α → α)
    (model_ : SpeakerEmbeddingExtractorNeMoModel α) (s : OnlineStream α) (hv : s.Valid)
    (hlt : s.GetNumProcessedFrames < s.NumFramesReady)
    (ht : model_.GetMetaData.feature_normalize_type = "per_feature" ∨
      model_.GetMetaData.feature_normalize_type = "") :
    (Compute sqrt model_ s).modelCalls.map (fun c => c.2) =
      [⟨[1], [s.NumFramesReady - s.GetNumProcessedFrames]⟩] := by
  rw [Compute_ready_eq sqrt model_ s hv hlt]
  rcases ht with ht | ht <;> simp [ht]

/-- C8 at ten ready frames, a count that is not a multiple of 16. -/
theorem Compute_length_tensor_witness :
    (exampleStream 10 0 4).Valid ∧
    (exampleStream 10 0 4).GetNumProcessedFrames < (exampleStream 10 0 4).NumFramesReady ∧
    (Compute id (exampleModel "per_feature") (exampleStream 10 0 4)).modelCalls.map
        (fun c => c.2) =
      [⟨[1], [(exampleStream 10 0 4).NumFramesReady -
        (exampleStream 10 0 4).GetNumProcessedFrames]⟩] :=
  ⟨by decide, by decide,
    Compute_length_tensor id (exampleModel "per_feature") (exampleStream 10 0 4)
      (by decide) (by decide) (Or.inl rfl)⟩

/-- C9: on a ready stream `Compute` dispatches on the normalisation type: for `"per_feature"`
the features handed on (to padding, the tensor and the model) are the `NormalizePerFeature`
result; for the empty string they are the extracted features unmodified; and the call ends in
`exit` exactly when the type is non-empty and different from `"per_feature"`, in which case the
model is not invoked. -/
theorem Compute_normalize_dispatch {α : Type} [LinearOrderedField α] (sqrt : α → α)
    (model_ : SpeakerEmbeddingExtractorNeMoModel α) (s : OnlineStream α) (hv : s.Valid)
    (hlt : s.GetNumProcessedFrames < s.NumFramesReady) :
    let num_frames := s.NumFramesReady - s.GetNumProcessedFrames
    let features := s.GetFrames s.GetNumProcessedFrames num_frames
    let feat_dim := wrap32 ((features.length : Int) / num_frames)
    let handedOn (f : List α) : List (Tensor α × Tensor Int) :=
      [(Transpose12 ⟨[1, num_frames, feat_dim], padFrames f num_frames feat_dim⟩,
        ⟨[1], [num_frames]⟩)]
    (model_.GetMetaData.feature_normalize_type = "per_feature" →
      (Compute sqrt model_ s).modelCalls =
        handedOn (NormalizePerFeature sqrt features num_frames feat_dim)) ∧
    (model_.GetMetaData.feature_normalize_type = "" →
      (Compute sqrt model_ s).modelCalls = handedOn features) ∧
    ((∃ status, (Compute sqrt model_ s).completion = Completion.exited status) ↔
      (model_.GetMetaData.feature_normalize_type ≠ "" ∧
        model_.GetMetaData.feature_normalize_type ≠ "per_feature")) ∧
    ((∃ status, (Compute sqrt model_ s).completion = Completion.exited status) →
      (Compute sqrt model_ s).modelCalls = []) := by
  intro num_frames features feat_dim handedOn
  rw [Compute_ready_eq sqrt model_ s hv hlt]
  by_cases h1 : model_.GetMetaData.feature_normalize_type = ""
  · simp [h1, handedOn, features, num_frames, feat_dim]
  · by_cases h2 : model_.GetMetaData.feature_normalize_type = "per_feature"
    · simp [h2, handedOn, features, num_frames, feat_dim]
    · simp [h1, h2]

/-- C9 at ten ready frames and the unsupported type `"mvn"`. -/
theorem Compute_normalize_dispatch_witness :
    (exampleStream 10 0 4).Valid ∧
    (exampleStream 10 0 4).GetNumProcessedFrames < (exampleStream 10 0 4).NumFramesReady ∧
    (let num_frames :=
        (exampleStream 10 0 4).NumFramesReady - (exampleStream 10 0 4).GetNumProcessedFrames
    let features :=
      (exampleStream 10 0 4).GetFrames (exampleStream 10 0 4).GetNumProcessedFrames num_frames
    let feat_dim := wrap32 ((features.length : Int) / num_frames)
    let handedOn (f : List ℚ) : List (Tensor ℚ × Tensor Int) :=
      [(Transpose12 ⟨[1, num_frames, feat_dim], padFrames f num_frames feat_dim⟩,
        ⟨[1], [num_frames]⟩)]
    ((exampleModel "mvn").GetMetaData.feature_normalize_type = "per_feature" →
      (Compute id (exampleModel "mvn") (exampleStream 10 0 4)).modelCalls =
        handedOn (NormalizePerFeature id features num_frames feat_dim)) ∧
    ((exampleModel "mvn").GetMetaData.feature_normalize_type = "" →
      (Compute id (exampleModel "mvn") (exampleStream 10 0 4)).modelCalls = handedOn features) ∧
    ((∃ status, (Compute id (exampleModel "mvn") (exampleStream 10 0 4)).completion
        = Completion.exited status) ↔
      ((exampleModel "mvn").GetMetaData.feature_normalize_type ≠ "" ∧
        (exampleModel "mvn").GetMetaData.feature_normalize_type ≠ "per_feature")) ∧
    ((∃ status, (Compute id (exampleModel "mvn") (exampleStream 10 0 4)).completion
        = Completion.exited status) →
      (Compute id (exampleModel "mvn") (exampleStream 10 0 4)).modelCalls = [])) :=
  ⟨by decide, by decide,
    Compute_normalize_dispatch id (exampleModel "mvn") (exampleStream 10 0 4)
      (by decide) (by decide)⟩

/-- C10, refuted at a stream whose reader hands out seven values for two frames: seven is not a
multiple of two, yet `Compute` goes on with `feat_dim = 7 / 2 = 3`, invokes the model on a
`[1, 3, 2]` tensor and returns an embedding. -/
theorem Compute_ragged_buffer_goes_on :
    raggedStream.Valid ∧ raggedStream.GetNumProcessedFrames < raggedStream.NumFramesReady ∧
    ((raggedStream.GetFrames 0 2).length : Int) % 2 ≠ 0 ∧
    (Compute id (exampleModel "") raggedStream).completion = Completion.returned [1, 4] ∧
    (Compute id (exampleModel "") raggedStream).modelCalls =
      [(⟨[1, 3, 2], [1, 4, 2, 5, 3, 6]⟩, ⟨[1], [2]⟩)] :=
  ⟨by decide, by decide, by decide, rfl, rfl⟩

/-- C10 as amended: on a ready stream whose extracted buffer length is not an exact multiple of
`num_frames`, `Compute` does not treat this as an error. With a supported normalisation type it
goes on with `feat_dim` the truncated quotient `length / num_frames`: it invokes the model
exactly once, on a tensor whose feature dimension is that `feat_dim` and with the length
`num_frames`, and returns; it ends in `exit` exactly when the normalisation type is
unsupported. Nothing is said about the time dimension of the tensor. -/
theorem Compute_ragged_buffer_no_check {α : Type} [LinearOrderedField α] (sqrt : α → α)
    (model_ : SpeakerEmbeddingExtractorNeMoModel α) (s : OnlineStream α) (hv : s.Valid)
    (hlt : s.GetNumProcessedFrames < s.NumFramesReady)
    (hragged :
      ((s.GetFrames s.GetNumProcessedFrames
        (s.NumFramesReady - s.GetNumProcessedFrames)).length : Int)
        % (s.NumFramesReady - s.GetNumProcessedFrames) ≠ 0) :
    let num_frames := s.NumFramesReady - s.GetNumProcessedFrames
    let features := s.GetFrames s.GetNumProcessedFrames num_frames
    let feat_dim := wrap32 ((features.length : Int) / num_frames)
    ((model_.GetMetaData.feature_normalize_type = "per_feature" ∨
        model_.GetMetaData.feature_normalize_type = "") →
      (∃ ans, (Compute sqrt model_ s).completion = Completion.returned ans) ∧
      (Compute sqrt model_ s).modelCalls.map (fun c => (c.1.shape.getD 1 0, c.2.data)) =
        [(feat_dim, [num_frames])]) ∧
    ((∃ status, (Compute sqrt model_ s).completion = Completion.exited status) ↔
      (model_.GetMetaData.feature_normalize_type ≠ "" ∧
        model_.GetMetaData.feature_normalize_type ≠ "per_feature")) := by
  intro num_frames features feat_dim
  have _h := hragged
  rw [Compute_ready_eq sqrt model_ s hv hlt]
  by_cases h1 : model_.GetMetaData.feature_normalize_type = ""
  · simp [h1, features, num_frames, feat_dim, Transpose12]
  · by_cases h2 : model_.GetMetaData.feature_normalize_type = "per_feature"
    · simp [h2, features, num_frames, feat_dim, Transpose12]
    · simp [h1, h2]

/-- C10 as amended, at the stream whose reader hands out seven values for two frames. -/
theorem Compute_ragged_buffer_no_check_witness :
    raggedStream.Valid ∧ raggedStream.GetNumProcessedFrames < raggedStream.NumFramesReady ∧
    ((raggedStream.GetFrames raggedStream.GetNumProcessedFrames
        (raggedStream.NumFramesReady - raggedStream.GetNumProcessedFrames)).length : Int)
        % (raggedStream.NumFramesReady - raggedStream.GetNumProcessedFrames) ≠ 0 ∧
    (let num_frames := raggedStream.NumFramesReady - raggedStream.GetNumProcessedFrames
    let features := raggedStream.GetFrames raggedStream.GetNumProcessedFrames num_frames
    let feat_dim := wrap32 ((features.length : Int) / num_frames)
    (((exampleModel "").GetMetaData.feature_normalize_type = "per_feature" ∨
        (exampleModel "").GetMetaData.feature_normalize_type = "") →
      (∃ ans, (Compute id (exampleModel "") raggedStream).completion
        = Completion.returned ans) ∧
      (Compute id (exampleModel "") raggedStream).modelCalls.map
          (fun c => (c.1.shape.getD 1 0, c.2.data)) =
        [(feat_dim, [num_frames])]) ∧
    ((∃ status, (Compute id (exampleModel "") raggedStream).completion
        = Completion.exited status) ↔
      ((exampleModel "").GetMetaData.feature_normalize_type ≠ "" ∧
        (exampleModel "").GetMetaData.feature_normalize_type ≠ "per_feature"))) :=
  ⟨by decide, by decide, by decide,
    Compute_ragged_buffer_no_check id (exampleModel "") raggedStream
      (by decide) (by decide) (by decide)⟩

/-! ## Claims about `IsReady` and the cursor -/

/-- The stream a ready call leaves, whatever the normalisation type. -/
theorem Compute_ready_stream {α : Type} [LinearOrderedField α] (sqrt : α → α)
    (model_ : SpeakerEmbeddingExtractorNeMoModel α) (s : OnlineStream α) (hv : s.Valid)
    (hlt : s.GetNumProcessedFrames < s.NumFramesReady) :
    (Compute sqrt model_ s).stream = ⟨s.NumFramesReady, s.NumFramesReady, s.GetFrames⟩ ∧
    (Compute sqrt model_ s).getFramesCalls =
      [(s.GetNumProcessedFrames, s.NumFramesReady - s.GetNumProcessedFrames)] := by
  rw [Compute_ready_eq sqrt model_ s hv hlt]
  by_cases h1 : model_.GetMetaData.feature_normalize_type = ""
  · simp [h1]
  · by_cases h2 : model_.GetMetaData.feature_normalize_type = "per_feature"
    · simp [h2]
    · simp [h1, h2]

/-- C11: `IsReady` returns true if and only if `NumProcessedFrames < NumFramesReady`. The
method only reads the two counters and yields a boolean, so the stream state is the same after
the call. -/
theorem IsReady_iff {α : Type} (s : OnlineStream α) :
    IsReady s = true ↔ s.GetNumProcessedFrames < s.NumFramesReady := by
  simp [IsReady]

/-- C12: on a ready stream with a supported normalisation type, `Compute` leaves `ready`
unchanged, and `IsReady` evaluated on the stream left by `Compute` (no new frames having
arrived) returns false. -/
theorem IsReady_after_Compute {α : Type} [LinearOrderedField α] (sqrt : α → α)
    (model_ : SpeakerEmbeddingExtractorNeMoModel α) (s : OnlineStream α) (hv : s.Valid)
    (hlt : s.GetNumProcessedFrames < s.NumFramesReady)
    (ht : model_.GetMetaData.feature_normalize_type = "per_feature" ∨
      model_.GetMetaData.feature_normalize_type = "") :
    (Compute sqrt model_ s).stream.NumFramesReady = s.NumFramesReady ∧
    IsReady (Compute sqrt model_ s).stream = false := by
  rw [Compute_ready_eq sqrt model_ s hv hlt]
  rcases ht with ht | ht <;> simp [ht, IsReady]

/-- C12 at a stream with ten frames ready and three processed. -/
theorem IsReady_after_Compute_witness :
    (exampleStream 10 3 4).Valid ∧
    (exampleStream 10 3 4).GetNumProcessedFrames < (exampleStream 10 3 4).NumFramesReady ∧
    ((Compute id (exampleModel "per_feature") (exampleStream 10 3 4)).stream.NumFramesReady
      = (exampleStream 10 3 4).NumFramesReady ∧
    IsReady (Compute id (exampleModel "per_feature") (exampleStream 10 3 4)).stream = false) :=
  ⟨by decide, by decide,
    IsReady_after_Compute id (exampleModel "per_feature") (exampleStream 10 3 4)
      (by decide) (by decide) (Or.inl rfl)⟩

/-- C15: `processed ≤ ready` is preserved by `Compute` on every path: afterwards
`processed ≤ ready` still holds, `processed` has not decreased, and it has grown by no more
than `ready_before − processed_before`. -/
theorem Compute_preserves_cursor_le {α : Type} [LinearOrderedField α] (sqrt : α → α)
    (model_ : SpeakerEmbeddingExtractorNeMoModel α) (s : OnlineStream α) (hv : s.Valid)
    (hle : s.GetNumProcessedFrames ≤ s.NumFramesReady) :
    (Compute sqrt model_ s).stream.GetNumProcessedFrames
      ≤ (Compute sqrt model_ s).stream.NumFramesReady ∧
    s.GetNumProcessedFrames ≤ (Compute sqrt model_ s).stream.GetNumProcessedFrames ∧
    (Compute sqrt model_ s).stream.GetNumProcessedFrames - s.GetNumProcessedFrames
      ≤ s.NumFramesReady - s.GetNumProcessedFrames := by
  by_cases hlt : s.GetNumProcessedFrames < s.NumFramesReady
  · rw [(Compute_ready_stream sqrt model_ s hv hlt).1]
    simp only
    omega
  · rw [Compute_not_ready_eq sqrt model_ s hv (by omega)]
    simp only
    omega

/-- C15 at a stream with ten frames ready and three processed. -/
theorem Compute_preserves_cursor_le_witness :
    (exampleStream 10 3 4).Valid ∧
    (exampleStream 10 3 4).GetNumProcessedFrames ≤ (exampleStream 10 3 4).NumFramesReady ∧
    ((Compute id (exampleModel "") (exampleStream 10 3 4)).stream.GetNumProcessedFrames
      ≤ (Compute id (exampleModel "") (exampleStream 10 3 4)).stream.NumFramesReady ∧
    (exampleStream 10 3 4).GetNumProcessedFrames
      ≤ (Compute id (exampleModel "") (exampleStream 10 3 4)).stream.GetNumProcessedFrames ∧
    (Compute id (exampleModel "") (exampleStream 10 3 4)).stream.GetNumProcessedFrames
        - (exampleStream 10 3 4).GetNumProcessedFrames
      ≤ (exampleStream 10 3 4).NumFramesReady - (exampleStream 10 3 4).GetNumProcessedFrames) :=
  ⟨by decide, by decide,
    Compute_preserves_cursor_le id (exampleModel "") (exampleStream 10 3 4)
      (by decide) (by decide)⟩

/-! ## Claims about runs of calls -/

/-- A new range that starts where the tiling ends extends the tiling. -/
theorem Contiguous_append (a b : Int) (l : List (Int × Int)) (k : Int) (hk : 0 < k)
    (h : Contiguous a l b) : Contiguous a (l ++ [(b, k)]) (b + k) := by
  induction l generalizing a with
  | nil =>
    have hab : a = b := h
    subst hab
    exact ⟨rfl, hk, rfl⟩
  | cons c rest ih =>
    obtain ⟨h1, h2, h3⟩ := h
    exact ⟨h1, h2, ih _ h3⟩

/-- In a tiling from `a` to `b` every frame of `[a, b)` lies in exactly one range and every
other frame in none. -/
theorem Contiguous_timesExtracted (a b : Int) (l : List (Int × Int)) (h : Contiguous a l b) :
    a ≤ b ∧ ∀ f, timesExtracted l f = if a ≤ f ∧ f < b then 1 else 0 := by
  induction l generalizing a with
  | nil =>
    have hab : a = b := h
    subst hab
    refine ⟨le_refl _, fun f => ?_⟩
    have : ¬ (a ≤ f ∧ f < a) := by omega
    simp [timesExtracted, this]
  | cons c rest ih =>
    obtain ⟨h1, h2, h3⟩ := h
    obtain ⟨hle, hf⟩ := ih _ h3
    refine ⟨by omega, fun f => ?_⟩
    have hrest := hf f
    unfold timesExtracted at hrest ⊢
    rw [List.countP_cons, hrest]
    by_cases hin : c.1 ≤ f ∧ f < c.1 + c.2
    · have h4 : ¬ (a + c.2 ≤ f ∧ f < b) := by omega
      have h5 : a ≤ f ∧ f < b := by omega
      rw [decide_eq_true hin, if_neg h4, if_pos h5]; rfl
    · rw [decide_eq_false hin]
      by_cases h4 : a + c.2 ≤ f ∧ f < b
      · have h5 : a ≤ f ∧ f < b := by omega
        rw [if_pos h4, if_pos h5]; rfl
      · have h5 : ¬ (a ≤ f ∧ f < b) := by omega
        rw [if_neg h4, if_neg h5]; rfl

/-- A part of a run sees no more arrivals than the whole run. -/
theorem totalArrivals_take_le (events : List StreamEvent) (m : Nat) :
    totalArrivals (events.take m) ≤ totalArrivals events := by
  induction events generalizing m with
  | nil => simp [totalArrivals]
  | cons e rest ih =>
    cases m with
    | zero => simp [totalArrivals]
    | succ m =>
      cases e with
      | arrive count => simp only [List.take_succ_cons, totalArrivals]; have := ih m; omega
      | compute => simp only [List.take_succ_cons, totalArrivals]; exact ih m

/-- The invariant of a run: the counters stay frame counts and the recorded ranges tile the
frames below the cursor. -/
theorem runEvents_invariant {α : Type} [LinearOrderedField α] (sqrt : α → α)
    (model_ : SpeakerEmbeddingExtractorNeMoModel α) (events : List StreamEvent) :
    ∀ st : RunState α, st.stream.Valid →
      Contiguous 0 st.extracted st.stream.GetNumProcessedFrames →
      st.stream.NumFramesReady + (totalArrivals events : Int) < 2147483648 →
      (runEvents sqrt model_ st events).stream.Valid ∧
      Contiguous 0 (runEvents sqrt model_ st events).extracted
        (runEvents sqrt model_ st events).stream.GetNumProcessedFrames := by
  induction events with
  | nil => intro st hv hc _; exact ⟨hv, hc⟩
  | cons e rest ih =>
    intro st hv hc hb
    obtain ⟨v1, v2, v3, v4⟩ := hv
    cases e with
    | arrive count =>
      simp only [totalArrivals, Nat.cast_add] at hb
      exact ih ⟨arriveFrames st.stream count, st.extracted⟩
        ⟨v1, v2, by simp only [arriveFrames]; omega, by simp only [arriveFrames]; omega⟩
        hc (by simp only [arriveFrames]; omega)
    | compute =>
      simp only [totalArrivals] at hb
      have hcons : runEvents sqrt model_ st (StreamEvent.compute :: rest)
          = runEvents sqrt model_ (runStep sqrt model_ st StreamEvent.compute) rest := rfl
      rw [hcons]
      by_cases hlt : st.stream.GetNumProcessedFrames < st.stream.NumFramesReady
      · obtain ⟨hs, hg⟩ := Compute_ready_stream sqrt model_ st.stream ⟨v1, v2, v3, v4⟩ hlt
        have hstep : runStep sqrt model_ st StreamEvent.compute =
            ⟨⟨st.stream.NumFramesReady, st.stream.NumFramesReady, st.stream.GetFrames⟩,
              st.extracted ++ [(st.stream.GetNumProcessedFrames,
                st.stream.NumFramesReady - st.stream.GetNumProcessedFrames)]⟩ := by
          simp only [runStep, hs, hg]
        rw [hstep]
        have hv1 : (⟨st.stream.NumFramesReady, st.stream.NumFramesReady,
            st.stream.GetFrames⟩ : OnlineStream α).Valid := ⟨v3, v4, v3, v4⟩
        refine ih _ hv1 ?_ hb
        have := Contiguous_append 0 st.stream.GetNumProcessedFrames st.extracted
          (st.stream.NumFramesReady - st.stream.GetNumProcessedFrames) (by omega) hc
        rw [show st.stream.GetNumProcessedFrames
          + (st.stream.NumFramesReady - st.stream.GetNumProcessedFrames)
          = st.stream.NumFramesReady by omega] at this
        exact this
      · have hstep : runStep sqrt model_ st StreamEvent.compute = st := by
          simp only [runStep, Compute_not_ready_eq sqrt model_ st.stream ⟨v1, v2, v3, v4⟩
            (by omega), List.append_nil]
        rw [hstep]
        exact ih st ⟨v1, v2, v3, v4⟩ hc hb

/-- C13: in a run that starts with `processed = 0` and interleaves frame arrivals with `Compute`
calls under a supported normalisation type, at every point (after any number `m` of events)
the ranges read by the calls follow one another from frame 0 to the cursor without gap or
overlap, every frame index in `[0, processed)` has been extracted exactly once, and every
other index not at all. -/
theorem Compute_extracts_each_frame_once {α : Type} [LinearOrderedField α] (sqrt : α → α)
    (model_ : SpeakerEmbeddingExtractorNeMoModel α) (s0 : OnlineStream α)
    (events : List StreamEvent)
    (h0 : s0.GetNumProcessedFrames = 0) (hr0 : 0 ≤ s0.NumFramesReady)
    (hbound : s0.NumFramesReady + (totalArrivals events : Int) < 2147483648)
    (ht : model_.GetMetaData.feature_normalize_type = "per_feature" ∨
      model_.GetMetaData.feature_normalize_type = "") :
    ∀ m : Nat,
      Contiguous 0 (runEvents sqrt model_ ⟨s0, []⟩ (events.take m)).extracted
        (runEvents sqrt model_ ⟨s0, []⟩ (events.take m)).stream.GetNumProcessedFrames ∧
      ∀ f : Int,
        timesExtracted (runEvents sqrt model_ ⟨s0, []⟩ (events.take m)).extracted f =
          if 0 ≤ f ∧ f < (runEvents sqrt model_ ⟨s0, []⟩
              (events.take m)).stream.GetNumProcessedFrames then 1 else 0 := by
  intro m
  have _h := ht
  have hle := totalArrivals_take_le events m
  have hv0 : s0.Valid := ⟨by omega, by omega, hr0, by omega⟩
  have hc0 : Contiguous 0 ([] : List (Int × Int)) s0.GetNumProcessedFrames := h0.symm
  have hb0 : s0.NumFramesReady + (totalArrivals (events.take m) : Int) < 2147483648 := by
    omega
  have hinv := (runEvents_invariant sqrt model_ (events.take m) ⟨s0, []⟩ hv0 hc0 hb0).2
  exact ⟨hinv, (Contiguous_timesExtracted 0 _ _ hinv).2⟩


/-- C13 at a run of a call, four arriving frames and two calls, from three ready frames. -/
theorem Compute_extracts_each_frame_once_witness :
    (exampleStream 3 0 4).GetNumProcessedFrames = 0 ∧ 0 ≤ (exampleStream 3 0 4).NumFramesReady ∧
    (exampleStream 3 0 4).NumFramesReady + (totalArrivals exampleEvents : Int) < 2147483648 ∧
    ((exampleModel "per_feature").GetMetaData.feature_normalize_type = "per_feature" ∨
      (exampleModel "per_feature").GetMetaData.feature_normalize_type = "") ∧
    ∀ m : Nat,
      Contiguous 0
        (runEvents id (exampleModel "per_feature") ⟨exampleStream 3 0 4, []⟩
          (exampleEvents.take m)).extracted
        (runEvents id (exampleModel "per_feature") ⟨exampleStream 3 0 4, []⟩
          (exampleEvents.take m)).stream.GetNumProcessedFrames ∧
      ∀ f : Int,
        timesExtracted
            (runEvents id (exampleModel "per_feature") ⟨exampleStream 3 0 4, []⟩
              (exampleEvents.take m)).extracted f =
          if 0 ≤ f ∧ f < (runEvents id (exampleModel "per_feature") ⟨exampleStream 3 0 4, []⟩
              (exampleEvents.take m)).stream.GetNumProcessedFrames then 1 else 0 :=
  ⟨by decide, by decide, by decide, Or.inl rfl,
    Compute_extracts_each_frame_once id (exampleModel "per_feature") (exampleStream 3 0 4)
      exampleEvents (by decide) (by decide) (by decide) (Or.inl rfl)⟩

/-! ## Claims about padding -/

/-- `paddedFrameCount n` is the least multiple of 16 that is at least `n`. -/
theorem paddedFrameCount_least (n : Nat) :
    16 ∣ paddedFrameCount n ∧ n ≤ paddedFrameCount n ∧
    ∀ m, 16 ∣ m → n ≤ m → paddedFrameCount n ≤ m := by
  unfold paddedFrameCount
  refine ⟨Nat.dvd_mul_left 16 _, by omega, fun m hm hn => ?_⟩
  obtain ⟨k, rfl⟩ := hm
  omega

/-- A non-negative `int32_t` converts to `size_t` unchanged. -/
theorem toSizeT_eq_self (x : Nat) (h : x < 2147483648) : toSizeT (x : Int) = x := by
  unfold toSizeT; omega

/-- The padding step appends zeros up to the padded frame count. -/
theorem padFrames_eq {α : Type} [Zero α] (features : List α) (n d : Nat)
    (hlen : features.length = n * d)
    (hP : paddedFrameCount n < 2147483648)
    (hrange : paddedFrameCount n * d < 2147483648) :
    padFrames features (n : Int) (d : Int)
      = features ++ List.replicate ((paddedFrameCount n - n) * d) 0 := by
  have hdef : paddedFrameCount n = (n + 15) / 16 * 16 := rfl
  have hmod : Int.tmod (n : Int) 16 = ((n % 16 : Nat) : Int) := by
    rw [Int.tmod_eq_emod (by omega) (by omega)]; omega
  unfold padFrames
  rw [hmod]
  by_cases h0 : n % 16 = 0
  · have hPn : paddedFrameCount n = n := by omega
    simp [h0, hPn]
  · have hne : ((n % 16 : Nat) : Int) ≠ 0 := by omega
    rw [if_pos hne]
    have hpad : wrap32 (16 - ((n % 16 : Nat) : Int)) = 16 - ((n % 16 : Nat) : Int) :=
      wrap32_eq_self (by omega) (by omega)
    have hsum : (n : Int) + (16 - ((n % 16 : Nat) : Int)) = ((paddedFrameCount n : Nat) : Int) := by
      omega
    have hmul : ((paddedFrameCount n : Nat) : Int) * (d : Int)
        = ((paddedFrameCount n * d : Nat) : Int) := by push_cast; ring
    simp only [hpad, hsum]
    have hw : wrap32 ((paddedFrameCount n : Nat) : Int) = ((paddedFrameCount n : Nat) : Int) :=
      wrap32_eq_self (by omega) (by omega)
    rw [hw, hmul, wrap32_eq_self (by omega) (by omega), toSizeT_eq_self _ hrange]
    have hle : n * d ≤ paddedFrameCount n * d := Nat.mul_le_mul_right d (by omega)
    unfold resize
    rw [List.take_of_length_le (by omega), hlen, Nat.sub_mul]


/-- C14: for `num_frames ≥ 1` and a buffer of `num_frames · feat_dim` values, the padding step
yields a buffer of `P · feat_dim` values, `P` the smallest multiple of 16 that is at least
`num_frames`; its first `num_frames · feat_dim` values are the input values and the remaining
`(P − num_frames) · feat_dim` are all `0`; `P − num_frames = 16 − num_frames mod 16` when
`num_frames` is no multiple of 16, and the buffer is unchanged when it is one. -/
theorem padFrames_zero_frames {α : Type} [Zero α] (features : List α)
    (num_frames feat_dim : Nat) (hn : 1 ≤ num_frames)
    (hlen : features.length = num_frames * feat_dim)
    (hP : paddedFrameCount num_frames < 2147483648)
    (hrange : paddedFrameCount num_frames * feat_dim < 2147483648) :
    (16 ∣ paddedFrameCount num_frames ∧ num_frames ≤ paddedFrameCount num_frames ∧
      ∀ m, 16 ∣ m → num_frames ≤ m → paddedFrameCount num_frames ≤ m) ∧
    (padFrames features (num_frames : Int) (feat_dim : Int)).length
      = paddedFrameCount num_frames * feat_dim ∧
    (padFrames features (num_frames : Int) (feat_dim : Int)).take (num_frames * feat_dim)
      = features ∧
    (padFrames features (num_frames : Int) (feat_dim : Int)).drop (num_frames * feat_dim)
      = List.replicate ((paddedFrameCount num_frames - num_frames) * feat_dim) 0 ∧
    (num_frames % 16 ≠ 0 → paddedFrameCount num_frames - num_frames = 16 - num_frames % 16) ∧
    (num_frames % 16 = 0 → padFrames features (num_frames : Int) (feat_dim : Int) = features) := by
  have _h := hn
  have hle : num_frames ≤ paddedFrameCount num_frames := (paddedFrameCount_least num_frames).2.1
  have hmul : num_frames * feat_dim + (paddedFrameCount num_frames - num_frames) * feat_dim
      = paddedFrameCount num_frames * feat_dim := by
    rw [← Nat.add_mul]; congr 1; omega
  have hdef : paddedFrameCount num_frames = (num_frames + 15) / 16 * 16 := rfl
  rw [padFrames_eq features num_frames feat_dim hlen hP hrange]
  refine ⟨paddedFrameCount_least num_frames, ?_, ?_, ?_, ?_, ?_⟩
  · rw [List.length_append, List.length_replicate, hlen, hmul]
  · rw [← hlen, List.take_left]
  · rw [← hlen, List.drop_left]
  · intro h; omega
  · intro h
    have : paddedFrameCount num_frames - num_frames = 0 := by omega
    rw [this, Nat.zero_mul, List.replicate_zero, List.append_nil]

/-- C14 at the ten frames of four features of the example stream. -/
theorem padFrames_zero_frames_witness :
    1 ≤ 10 ∧ ((exampleStream 10 0 4).GetFrames 0 10).length = 10 * 4 ∧
    paddedFrameCount 10 < 2147483648 ∧ paddedFrameCount 10 * 4 < 2147483648 ∧
    ((16 ∣ paddedFrameCount 10 ∧ 10 ≤ paddedFrameCount 10 ∧
      ∀ m, 16 ∣ m → 10 ≤ m → paddedFrameCount 10 ≤ m) ∧
    (padFrames ((exampleStream 10 0 4).GetFrames 0 10) ((10 : Nat) : Int) ((4 : Nat) : Int)).length
      = paddedFrameCount 10 * 4 ∧
    (padFrames ((exampleStream 10 0 4).GetFrames 0 10) ((10 : Nat) : Int)
        ((4 : Nat) : Int)).take (10 * 4)
      = (exampleStream 10 0 4).GetFrames 0 10 ∧
    (padFrames ((exampleStream 10 0 4).GetFrames 0 10) ((10 : Nat) : Int)
        ((4 : Nat) : Int)).drop (10 * 4)
      = List.replicate ((paddedFrameCount 10 - 10) * 4) 0 ∧
    (10 % 16 ≠ 0 → paddedFrameCount 10 - 10 = 16 - 10 % 16) ∧
    (10 % 16 = 0 →
      padFrames ((exampleStream 10 0 4).GetFrames 0 10) ((10 : Nat) : Int) ((4 : Nat) : Int)
        = (exampleStream 10 0 4).GetFrames 0 10)) :=
  ⟨by decide, by decide, by decide, by decide,
    padFrames_zero_frames ((exampleStream 10 0 4).GetFrames 0 10) 10 4
      (by decide) (by decide) (by decide) (by decide)⟩

/-! ## Claims about the divisions -/

/-- `NormalizePerFeature` is its last loop run with the vectors `mean` and `stddev`. -/
theorem NormalizePerFeature_eq_last_loop {α : Type} [LinearOrderedField α] (sqrt : α → α)
    (p : List α) (num_frames feat_dim : Int) :
    NormalizePerFeature sqrt p num_frames feat_dim =
      forLoop num_frames (fun i q =>
        forLoop feat_dim (fun j q =>
          q.set (flatIndex feat_dim i j)
            ((q.getD (flatIndex feat_dim i j) 0
                - (NormalizePerFeature_mean p num_frames feat_dim).getD j 0)
              / (NormalizePerFeature_stddev sqrt p num_frames feat_dim).getD j 0)) q) p :=
  rfl

/-- A loop runs `n.toNat` times. -/
theorem forLoop_toNat {σ : Type} (n : Int) (body : Nat → σ → σ) (init : σ) :
    forLoop n body init = forLoop ((n.toNat : Nat) : Int) body init := by
  unfold forLoop
  rw [Int.toNat_ofNat]

/-- Every cell of the vector `stddev` is `sqrt` of at least `1e-8`. -/
theorem NormalizePerFeature_stddev_ge (p : List ℝ) (num_frames feat_dim : Int) (j : Nat)
    (hj : j < feat_dim.toNat) :
    Real.sqrt 1e-8 ≤ (NormalizePerFeature_stddev Real.sqrt p num_frames feat_dim).getD j 0 ∧
    0 < (NormalizePerFeature_stddev Real.sqrt p num_frames feat_dim).getD j 0 := by
  have hpos : (0 : ℝ) < Real.sqrt 1e-8 := Real.sqrt_pos.mpr (by norm_num)
  unfold NormalizePerFeature_stddev
  lift_lets
  extract_lets mean zeros vsum variance
  have hzl : zeros.length = feat_dim.toNat := by simp [zeros]
  have h := (forLoop_set (0 : ℝ) (fun j => j)
    (fun j _ => Real.sqrt (max (variance.getD j 0) 0 + 1e-8)) zeros feat_dim.toNat
    (fun a _ b _ h => h)).2.1 j hj (by rw [hzl]; exact hj)
  rw [forLoop_toNat]
  have hval : (forLoop ((feat_dim.toNat : Nat) : Int) (fun j stddev =>
      stddev.set j (Real.sqrt (max (variance.getD j 0) 0 + 1e-8))) zeros).getD j 0
      = Real.sqrt (max (variance.getD j 0) 0 + 1e-8) := h
  rw [hval]
  have hle : Real.sqrt 1e-8 ≤ Real.sqrt (max (variance.getD j 0) 0 + 1e-8) :=
    Real.sqrt_le_sqrt (by have := le_max_right (variance.getD j 0) 0; linarith)
  exact ⟨hle, lt_of_lt_of_le hpos hle⟩


/-- Inside a call with `num_frames ≥ 1` no divisor of `NormalizePerFeature` is zero. -/
theorem NormalizePerFeature_divisors_ne_zero (p : List ℝ) (num_frames feat_dim : Int)
    (hn : 1 ≤ num_frames) :
    ∀ x ∈ NormalizePerFeature_divisors Real.sqrt p num_frames feat_dim, x ≠ 0 := by
  have hnf : (num_frames : ℝ) ≠ 0 := by
    have : num_frames ≠ 0 := by omega
    exact_mod_cast this
  intro x hx
  unfold NormalizePerFeature_divisors at hx
  rw [List.mem_append, List.mem_append] at hx
  rcases hx with (hx | hx) | hx
  · obtain ⟨_, _, rfl⟩ := List.mem_map.mp hx
    exact hnf
  · obtain ⟨_, _, rfl⟩ := List.mem_map.mp hx
    exact hnf
  · obtain ⟨_, _, hx2⟩ := List.mem_flatMap.mp hx
    obtain ⟨j, hj, rfl⟩ := List.mem_map.mp hx2
    exact ne_of_gt
      (NormalizePerFeature_stddev_ge p num_frames feat_dim j (List.mem_range.mp hj)).2

/-- C16: every division a `Compute` call executes has a non-zero divisor. The integer divisors
(`features.size() / num_frames`, and the constant 16 of the padding test) are at least 1 and
the floating-point divisors (`mean[j] / num_frames`, `variance[j] / num_frames`,
`... / stddev[j]`) are non-zero, since all of them lie behind the `num_frames ≤ 0` early
return; and for every input matrix and every column `j` the divisor `stddev[j]` is at least
`sqrt(1e-8)` and strictly positive. -/
theorem Compute_divisors_nonzero (model_ : SpeakerEmbeddingExtractorNeMoModel ℝ)
    (s : OnlineStream ℝ) :
    (∀ x ∈ Compute_integerDivisors model_ s, 1 ≤ x) ∧
    (∀ x ∈ Compute_floatDivisors Real.sqrt model_ s, x ≠ 0) ∧
    (∀ (p : List ℝ) (num_frames feat_dim : Int) (j : Nat), j < feat_dim.toNat →
      Real.sqrt 1e-8 ≤ (NormalizePerFeature_stddev Real.sqrt p num_frames feat_dim).getD j 0 ∧
      0 < (NormalizePerFeature_stddev Real.sqrt p num_frames feat_dim).getD j 0) := by
  refine ⟨?_, ?_, fun p n d j hj => NormalizePerFeature_stddev_ge p n d j hj⟩
  · intro x hx
    unfold Compute_integerDivisors at hx
    by_cases hnf : wrap32 (s.NumFramesReady - s.GetNumProcessedFrames) ≤ 0
    · simp [hnf] at hx
    · have h1 : 1 ≤ wrap32 (s.NumFramesReady - s.GetNumProcessedFrames) := by omega
      simp only [hnf, if_false] at hx
      split_ifs at hx <;> simp at hx <;> omega
  · intro x hx
    unfold Compute_floatDivisors at hx
    by_cases hnf : wrap32 (s.NumFramesReady - s.GetNumProcessedFrames) ≤ 0
    · simp [hnf] at hx
    · have h1 : 1 ≤ wrap32 (s.NumFramesReady - s.GetNumProcessedFrames) := by omega
      simp only [hnf, if_false] at hx
      split_ifs at hx
      · exact NormalizePerFeature_divisors_ne_zero _ _ _ h1 x hx
      · simp at hx
      · simp at hx


/-- C16 at a stream over the reals with two frames of two features: the call divides by
`num_frames = 2` and by 16, and executes eight floating-point divisions. -/
theorem Compute_divisors_nonzero_witness :
    Compute_integerDivisors realModel realStream = [2, 16, 16] ∧
    (Compute_floatDivisors Real.sqrt realModel realStream).length = 8 ∧
    ((∀ x ∈ Compute_integerDivisors realModel realStream, 1 ≤ x) ∧
    (∀ x ∈ Compute_floatDivisors Real.sqrt realModel realStream, x ≠ 0) ∧
    (∀ (p : List ℝ) (num_frames feat_dim : Int) (j : Nat), j < feat_dim.toNat →
      Real.sqrt 1e-8 ≤ (NormalizePerFeature_stddev Real.sqrt p num_frames feat_dim).getD j 0 ∧
      0 < (NormalizePerFeature_stddev Real.sqrt p num_frames feat_dim).getD j 0)) :=
  ⟨by decide, by decide, Compute_divisors_nonzero realModel realStream⟩

/-! ## Claims about independence and the unsupported type -/

/-- C17: for two ready streams and models with the same meta data, if the unconsumed frames are
the same (same count, same values) then the model is handed the same feature tensor and the
same length, whatever the two cursors are and whatever `GetFrames` holds elsewhere: `Compute`
carries no statistic from one call to the next. -/
theorem Compute_per_call_independent {α : Type} [LinearOrderedField α] (sqrt : α → α)
    (m1 m2 : SpeakerEmbeddingExtractorNeMoModel α) (s1 s2 : OnlineStream α)
    (hm : m1.GetMetaData = m2.GetMetaData)
    (hv1 : s1.Valid) (hv2 : s2.Valid)
    (hr1 : s1.GetNumProcessedFrames < s1.NumFramesReady)
    (hr2 : s2.GetNumProcessedFrames < s2.NumFramesReady)
    (hcount : s1.NumFramesReady - s1.GetNumProcessedFrames
      = s2.NumFramesReady - s2.GetNumProcessedFrames)
    (hframes : s1.GetFrames s1.GetNumProcessedFrames
        (s1.NumFramesReady - s1.GetNumProcessedFrames)
      = s2.GetFrames s2.GetNumProcessedFrames
        (s2.NumFramesReady - s2.GetNumProcessedFrames)) :
    (Compute sqrt m1 s1).modelCalls = (Compute sqrt m2 s2).modelCalls := by
  rw [Compute_ready_eq sqrt m1 s1 hv1 hr1, Compute_ready_eq sqrt m2 s2 hv2 hr2]
  rw [hcount] at hframes
  simp only [hm, hcount, hframes]
  by_cases h1 : m2.GetMetaData.feature_normalize_type = ""
  · simp [h1]
  · by_cases h2 : m2.GetMetaData.feature_normalize_type = "per_feature"
    · simp [h2]
    · simp [h1, h2]

/-- C17 at two streams with cursors 0 and 10 and the same seven unconsumed frames. -/
theorem Compute_per_call_independent_witness :
    (exampleModel "per_feature").GetMetaData = (exampleModel "per_feature").GetMetaData ∧
    (exampleStream 7 0 4).Valid ∧ shiftedStream.Valid ∧
    (exampleStream 7 0 4).GetNumProcessedFrames < (exampleStream 7 0 4).NumFramesReady ∧
    shiftedStream.GetNumProcessedFrames < shiftedStream.NumFramesReady ∧
    (exampleStream 7 0 4).NumFramesReady - (exampleStream 7 0 4).GetNumProcessedFrames
      = shiftedStream.NumFramesReady - shiftedStream.GetNumProcessedFrames ∧
    (exampleStream 7 0 4).GetFrames (exampleStream 7 0 4).GetNumProcessedFrames
        ((exampleStream 7 0 4).NumFramesReady - (exampleStream 7 0 4).GetNumProcessedFrames)
      = shiftedStream.GetFrames shiftedStream.GetNumProcessedFrames
        (shiftedStream.NumFramesReady - shiftedStream.GetNumProcessedFrames) ∧
    (Compute id (exampleModel "per_feature") (exampleStream 7 0 4)).modelCalls
      = (Compute id (exampleModel "per_feature") shiftedStream).modelCalls :=
  ⟨rfl, by decide, by decide, by decide, by decide, by decide, rfl,
    Compute_per_call_independent id (exampleModel "per_feature") (exampleModel "per_feature")
      (exampleStream 7 0 4) shiftedStream rfl (by decide) (by decide) (by decide) (by decide)
      (by decide) rfl⟩

/-- C18: on a ready stream with a normalisation type that is non-empty and different from
`"per_feature"`, `Compute` ends in `exit(-1)` with the frames already read and the cursor
already advanced to `ready_before`, although the model is not invoked and no embedding is
produced; the cursor differs from the one before the call, unlike on the no-frames path. -/
theorem Compute_unsupported_type_consumes {α : Type} [LinearOrderedField α] (sqrt : α → α)
    (model_ : SpeakerEmbeddingExtractorNeMoModel α) (s : OnlineStream α) (hv : s.Valid)
    (hlt : s.GetNumProcessedFrames < s.NumFramesReady)
    (h1 : model_.GetMetaData.feature_normalize_type ≠ "")
    (h2 : model_.GetMetaData.feature_normalize_type ≠ "per_feature") :
    (Compute sqrt model_ s).completion = Completion.exited (-1) ∧
    (Compute sqrt model_ s).stream.GetNumProcessedFrames = s.NumFramesReady ∧
    (Compute sqrt model_ s).stream.NumFramesReady = s.NumFramesReady ∧
    (Compute sqrt model_ s).getFramesCalls =
      [(s.GetNumProcessedFrames, s.NumFramesReady - s.GetNumProcessedFrames)] ∧
    (Compute sqrt model_ s).modelCalls = [] ∧
    (Compute sqrt model_ s).stream.GetNumProcessedFrames ≠ s.GetNumProcessedFrames := by
  rw [Compute_ready_eq sqrt model_ s hv hlt]
  simp [h1, h2]
  omega


/-- C18 at ten ready frames, three of them processed, and the type `"mvn"`. -/
theorem Compute_unsupported_type_consumes_witness :
    (exampleStream 10 3 4).Valid ∧
    (exampleStream 10 3 4).GetNumProcessedFrames < (exampleStream 10 3 4).NumFramesReady ∧
    (exampleModel "mvn").GetMetaData.feature_normalize_type ≠ "" ∧
    (exampleModel "mvn").GetMetaData.feature_normalize_type ≠ "per_feature" ∧
    ((Compute id (exampleModel "mvn") (exampleStream 10 3 4)).completion
      = Completion.exited (-1) ∧
    (Compute id (exampleModel "mvn") (exampleStream 10 3 4)).stream.GetNumProcessedFrames
      = (exampleStream 10 3 4).NumFramesReady ∧
    (Compute id (exampleModel "mvn") (exampleStream 10 3 4)).stream.NumFramesReady
      = (exampleStream 10 3 4).NumFramesReady ∧
    (Compute id (exampleModel "mvn") (exampleStream 10 3 4)).getFramesCalls =
      [((exampleStream 10 3 4).GetNumProcessedFrames,
        (exampleStream 10 3 4).NumFramesReady - (exampleStream 10 3 4).GetNumProcessedFrames)] ∧
    (Compute id (exampleModel "mvn") (exampleStream 10 3 4)).modelCalls = [] ∧
    (Compute id (exampleModel "mvn") (exampleStream 10 3 4)).stream.GetNumProcessedFrames
      ≠ (exampleStream 10 3 4).GetNumProcessedFrames) :=
  ⟨by decide, by decide, by decide, by decide,
    Compute_unsupported_type_consumes id (exampleModel "mvn") (exampleStream 10 3 4)
      (by decide) (by decide) (by decide) (by decide)⟩

/-! ## Claims about shifts of the input -/

/-- Two buffers of `n * d` cells with the same matrix entries are equal. -/
theorem eq_of_entry_eq {α : Type} [Zero α] (l1 l2 : List α) (n d : Nat)
    (h1 : l1.length = n * d) (h2 : l2.length = n * d)
    (h : ∀ i < n, ∀ j < d, entry l1 d i j = entry l2 d i j) : l1 = l2 := by
  apply List.ext_getElem (h1.trans h2.symm)
  intro k hk1 hk2
  have hk : k < n * d := by omega
  have hd : 0 < d := by
    rcases Nat.eq_zero_or_pos d with hd | hd
    · subst hd; simp at hk
    · exact hd
  have hi : k / d < n := Nat.div_lt_of_lt_mul (by rw [Nat.mul_comm]; exact hk)
  have hj : k % d < d := Nat.mod_lt _ hd
  have hidx : k / d * d + k % d = k := by
    rw [Nat.mul_comm]; exact Nat.div_add_mod k d
  have := h (k / d) hi (k % d) hj
  unfold entry at this
  rw [hidx] at this
  simpa [List.getD_eq_getElem?_getD, List.getElem?_eq_getElem hk1,
    List.getElem?_eq_getElem hk2] using this

/-- Adding `c` to a column adds `c` to its mean. -/
theorem specMean_shift {α : Type} [LinearOrderedField α] (p q : List α) (n d j : Nat)
    (hn : 1 ≤ n) (c : α) (h : ∀ i < n, entry q d i j = entry p d i j + c) :
    specMean q n d j = specMean p n d j + c := by
  have hn0 : (n : α) ≠ 0 := by
    have : (0 : α) < n := by exact_mod_cast hn
    exact ne_of_gt this
  unfold specMean
  rw [Finset.sum_congr rfl (fun i hi => h i (Finset.mem_range.mp hi)), Finset.sum_add_distrib,
    Finset.sum_const, Finset.card_range, nsmul_eq_mul]
  field_simp
  ring

/-- Adding `c` to a column leaves its variance alone. -/
theorem specVariance_shift {α : Type} [LinearOrderedField α] (p q : List α) (n d j : Nat)
    (hn : 1 ≤ n) (c : α) (h : ∀ i < n, entry q d i j = entry p d i j + c) :
    specVariance q n d j = specVariance p n d j := by
  unfold specVariance
  rw [specMean_shift p q n d j hn c h]
  rw [Finset.sum_congr rfl (fun i hi => by
    rw [h i (Finset.mem_range.mp hi), add_sub_add_right_eq_sub])]

/-- Output column `j` is the same for two inputs whose columns `j` differ by a constant. -/
theorem NormalizePerFeature_column_shift {α : Type} [LinearOrderedField α] (sqrt : α → α)
    (p q : List α) (n d : Nat) (hn : 1 ≤ n) (hp : p.length = n * d) (hq : q.length = n * d)
    (hrange : n * d < 2147483648) (j : Nat) (hj : j < d) (c : α)
    (h : ∀ i < n, entry q d i j = entry p d i j + c) :
    ∀ i < n, entry (NormalizePerFeature sqrt q (n : Int) (d : Int)) d i j
      = entry (NormalizePerFeature sqrt p (n : Int) (d : Int)) d i j := by
  intro i hi
  rw [(NormalizePerFeature_entries sqrt q n d hq hrange).2 i hi j hj,
    (NormalizePerFeature_entries sqrt p n d hp hrange).2 i hi j hj,
    specStddev, specStddev, specVariance_shift p q n d j hn c h,
    specMean_shift p q n d j hn c h, h i hi, add_sub_add_right_eq_sub]

/-- C19: for `num_frames ≥ 1`, adding a per-column offset `c[j]` to every entry of the matrix
leaves the result of `NormalizePerFeature` over the reals unchanged; and output column `j`
is determined by input column `j` alone. -/
theorem NormalizePerFeature_shift_invariant (p q : List ℝ) (num_frames feat_dim : Nat)
    (hn : 1 ≤ num_frames) (hp : p.length = num_frames * feat_dim)
    (hq : q.length = num_frames * feat_dim)
    (hrange : num_frames * feat_dim < 2147483648) :
    (∀ c : Nat → ℝ,
      (∀ i < num_frames, ∀ j < feat_dim, entry q feat_dim i j = entry p feat_dim i j + c j) →
      NormalizePerFeature Real.sqrt q (num_frames : Int) (feat_dim : Int)
        = NormalizePerFeature Real.sqrt p (num_frames : Int) (feat_dim : Int)) ∧
    (∀ j < feat_dim,
      (∀ i < num_frames, entry q feat_dim i j = entry p feat_dim i j) →
      ∀ i < num_frames,
        entry (NormalizePerFeature Real.sqrt q (num_frames : Int) (feat_dim : Int)) feat_dim i j
          = entry (NormalizePerFeature Real.sqrt p (num_frames : Int) (feat_dim : Int))
              feat_dim i j) := by
  constructor
  · intro c h
    apply eq_of_entry_eq _ _ num_frames feat_dim
    · rw [(NormalizePerFeature_entries Real.sqrt q num_frames feat_dim hq hrange).1, hq]
    · rw [(NormalizePerFeature_entries Real.sqrt p num_frames feat_dim hp hrange).1, hp]
    · intro i hi j hj
      exact NormalizePerFeature_column_shift Real.sqrt p q num_frames feat_dim hn hp hq hrange
        j hj (c j) (fun i hi => h i hi j hj) i hi
  · intro j hj h
    exact NormalizePerFeature_column_shift Real.sqrt p q num_frames feat_dim hn hp hq hrange
      j hj 0 (fun i hi => by rw [h i hi, add_zero])


/-- C19 at the example matrix and the example matrix shifted by the example offsets. -/
theorem NormalizePerFeature_shift_invariant_witness :
    1 ≤ 2 ∧ exampleMatrix.length = 2 * 2 ∧ shiftedMatrix.length = 2 * 2 ∧
    2 * 2 < 2147483648 ∧
    (∀ i < 2, ∀ j < 2, entry shiftedMatrix 2 i j = entry exampleMatrix 2 i j + exampleOffsets j) ∧
    NormalizePerFeature Real.sqrt shiftedMatrix ((2 : Nat) : Int) ((2 : Nat) : Int)
      = NormalizePerFeature Real.sqrt exampleMatrix ((2 : Nat) : Int) ((2 : Nat) : Int) :=
  have hshift : ∀ i < 2, ∀ j < 2,
      entry shiftedMatrix 2 i j = entry exampleMatrix 2 i j + exampleOffsets j := by
    intro i hi j hj
    interval_cases i <;> interval_cases j <;>
      norm_num [entry, shiftedMatrix, exampleMatrix, exampleOffsets]
  ⟨by decide, by decide, by decide, by decide, hshift,
    (NormalizePerFeature_shift_invariant exampleMatrix shiftedMatrix 2 2 (by decide) (by decide)
      (by decide) (by decide)).1 exampleOffsets hshift⟩

end SherpaOnnx
